import Mathlib

/-!
# Comento BootCamp RTOS DTC firmware: DTC store, EEPROM driver, CAN transport

A shallow embedding of

* `Core/Src/dtc_manager.c`   (the DTC status bitmask),
* `Core/Src/eeprom_25lc256.c` (page-splitting SPI EEPROM writes),
* `Core/Src/can_manager.c`   (interrupt-driven chunked CAN transmission),

followed by theorems about the embedded functions.

Conventions.  C unsigned integers are natural numbers, reduced modulo `2 ^ w`
wherever the C code stores into a `w`-bit object.  File-scope `static`
variables become fields of an explicit state record that every function takes
and returns.  Results of HAL calls are inputs of the model.
-/

namespace Comento

/-! ## stm32f4xx HAL status -/

/-- The `HAL_StatusTypeDef` enumeration of the STM32 HAL. -/
inductive HAL_StatusTypeDef where
  | HAL_OK
  | HAL_ERROR
  | HAL_BUSY
  | HAL_TIMEOUT
  deriving DecidableEq, Repr

open HAL_StatusTypeDef

/-! ## dtc_manager.h / dtc_manager.c -/

/-- Enumerator `DTC_CODE_COUNT`: the enumerators before it are numbered 0, 1, 2, 3. -/
def DTC_CODE_COUNT : Nat := 4

/-- Bitwise complement of a 32-bit `unsigned long` (`~x`). -/
def not32 (x : Nat) : Nat := 0xFFFFFFFF - x % 2 ^ 32

/-- State seen by the DTC manager: its one static variable, together with the
contents of the serial EEPROM (a byte per device address).  `dtc_manager.c`
contains no call into the EEPROM driver, so no function below reads or writes
`eeprom`; the field is there so that statements about the persisted snapshot
can be written down. -/
structure DtcState where
  /-- Variable `static uint32_t dtc_status_bitmask`. -/
  dtc_status_bitmask : Nat
  /-- Device contents, byte at each address. -/
  eeprom : Nat → Nat

/-- The little-endian 32-bit word stored in the device at byte address `addr`. -/
def snapshotWord (eeprom : Nat → Nat) (addr : Nat) : Nat :=
  eeprom addr % 256 + 256 * (eeprom (addr + 1) % 256)
    + 65536 * (eeprom (addr + 2) % 256) + 16777216 * (eeprom (addr + 3) % 256)

/-- Function `DTC_Init`: `dtc_status_bitmask = 0;`. -/
def DTC_Init (s : DtcState) : DtcState :=
  { s with dtc_status_bitmask := 0 }

/-- Function `DTC_Set`: inside `if (code < DTC_CODE_COUNT)`,
`dtc_status_bitmask |= (1UL << code);` (the body of the following
`if (old_bitmask != dtc_status_bitmask)` is a comment only). -/
def DTC_Set (code : Nat) (s : DtcState) : DtcState :=
  if code < DTC_CODE_COUNT then
    { s with dtc_status_bitmask := (s.dtc_status_bitmask ||| (1 <<< code) % 2 ^ 32) % 2 ^ 32 }
  else s

/-- Function `DTC_Clear`: inside `if (code < DTC_CODE_COUNT)`,
`dtc_status_bitmask &= ~(1UL << code);`. -/
def DTC_Clear (code : Nat) (s : DtcState) : DtcState :=
  if code < DTC_CODE_COUNT then
    { s with dtc_status_bitmask := (s.dtc_status_bitmask &&& not32 (1 <<< code)) % 2 ^ 32 }
  else s

/-- Function `DTC_IsSet`. -/
def DTC_IsSet (code : Nat) (s : DtcState) : Bool :=
  if code < DTC_CODE_COUNT then
    decide ((s.dtc_status_bitmask &&& (1 <<< code) % 2 ^ 32) ≠ 0)
  else false

/-- Function `DTC_GetStatusBitmask`. -/
def DTC_GetStatusBitmask (s : DtcState) : Nat :=
  s.dtc_status_bitmask

/-- Function `DTC_SetStatusBitmask`; the argument is converted to `uint32_t`. -/
def DTC_SetStatusBitmask (bitmask : Nat) (s : DtcState) : DtcState :=
  { s with dtc_status_bitmask := bitmask % 2 ^ 32 }

/-- Modelled from the spec: `DTC_ClearAll` is declared in `dtc_manager.h`
(`@brief Clears all DTCs.`) but no source file defines it.  Spec 4.1:
"`clear_all()` — sets mask to zero and persists unconditionally."  The
persisted snapshot is the mask at one fixed device address; the sources name
the address `DTC_STATUS_ADDRESS` in comments only, so it is the parameter
`snapshot_addr`, and the four bytes of the zero mask are stored there. -/
def DTC_ClearAll (snapshot_addr : Nat) (s : DtcState) : DtcState :=
  { dtc_status_bitmask := 0
    eeprom := fun a => if snapshot_addr ≤ a ∧ a < snapshot_addr + 4 then 0 else s.eeprom a }

/-- A device whose first four bytes hold the little-endian word `0x00000005`. -/
def eepromHolding5 : Nat → Nat := fun a => if a = 0 then 5 else 0

/-! ## eeprom_25lc256.h / eeprom_25lc256.c -/

/-- Macro `EEPROM_CMD_READ`. -/
def EEPROM_CMD_READ : Nat := 0x03
/-- Macro `EEPROM_CMD_WRITE`. -/
def EEPROM_CMD_WRITE : Nat := 0x02
/-- Macro `EEPROM_CMD_WREN`. -/
def EEPROM_CMD_WREN : Nat := 0x06
/-- Macro `EEPROM_CMD_RDSR`. -/
def EEPROM_CMD_RDSR : Nat := 0x05
/-- Macro `EEPROM_PAGE_SIZE`. -/
def EEPROM_PAGE_SIZE : Nat := 64
/-- Macro `EEPROM_TOTAL_SIZE`. -/
def EEPROM_TOTAL_SIZE : Nat := 32768

/-- Return values of the two HAL calls whose result `EEPROM_Write_DMA` tests,
given per loop iteration (iterations are numbered from 0). -/
structure SpiHal where
  /-- Result of `HAL_SPI_Transmit(s_hspi, header, 3, HAL_MAX_DELAY)` in iteration `k`. -/
  transmit : Nat → HAL_StatusTypeDef
  /-- Result of `HAL_SPI_Transmit_DMA(s_hspi, p_data, bytes_to_write)` in iteration `k`. -/
  transmit_dma : Nat → HAL_StatusTypeDef

/-- The HAL in which every call succeeds. -/
def SpiHal.allOk : SpiHal := ⟨fun _ => HAL_OK, fun _ => HAL_OK⟩

/-- One device write command started by an iteration of the loop of
`EEPROM_Write_DMA`: the values of `address`, `header[0..2]` and
`bytes_to_write` in that iteration and the `bytes_to_write` bytes at `p_data`. -/
structure WriteBurst where
  address : Nat
  header : List Nat
  len : Nat
  data : List Nat
  deriving DecidableEq, Repr

/-- The three header bytes built for a command byte and a 16-bit address:
`header[0] = cmd; header[1] = (address >> 8) & 0xFF; header[2] = address & 0xFF;`. -/
def eeprom_header (cmd address : Nat) : List Nat :=
  [cmd, (address >>> 8) &&& 0xFF, address &&& 0xFF]

/-- Function `EEPROM_Read_DMA`, as far as the bus sees it: the header handed to
`HAL_SPI_Transmit` and the returned status.  `tx` and `rx` are the results of
`HAL_SPI_Transmit` and `HAL_SPI_Receive_DMA`; the wait for `spi_dma_rx_complete`
is assumed to end. -/
def EEPROM_Read_DMA (tx rx : HAL_StatusTypeDef) (address : Nat) :
    HAL_StatusTypeDef × List Nat :=
  let header := eeprom_header EEPROM_CMD_READ (address % 65536)
  if tx ≠ HAL_OK then (HAL_ERROR, header)
  else if rx ≠ HAL_OK then (HAL_ERROR, header)
  else (HAL_OK, header)

/-- The `while (size > 0)` loop of `EEPROM_Write_DMA`.  `k` counts the
iterations already made, `p_data` is the memory from the pointer `p_data` on.
The result is the returned status with the bursts started, in order; the burst
of an iteration is logged when its header is handed to `HAL_SPI_Transmit`.
`fuel` bounds the number of iterations: `none` means the bound was reached
with `size > 0`.  `EEPROM_WriteEnable`, the wait for `spi_dma_tx_complete` and
`EEPROM_WaitForWriteComplete` are assumed to return; they touch none of
`address`, `p_data`, `size`. -/
def EEPROM_Write_DMA_loop (hal : SpiHal) :
    Nat → Nat → Nat → List Nat → Nat → Option (HAL_StatusTypeDef × List WriteBurst)
  | 0, _, _, _, size => if size > 0 then none else some (HAL_OK, [])
  | fuel + 1, k, address, p_data, size =>
    if size > 0 then
      let page_offset := (address % EEPROM_PAGE_SIZE) % 65536
      let bytes_left_in_page := (EEPROM_PAGE_SIZE - page_offset) % 65536
      let bytes_to_write := if size > bytes_left_in_page then bytes_left_in_page else size
      let header := eeprom_header EEPROM_CMD_WRITE address
      let burst : WriteBurst := ⟨address, header, bytes_to_write, p_data.take bytes_to_write⟩
      if hal.transmit k ≠ HAL_OK then some (HAL_ERROR, [burst])
      else if hal.transmit_dma k ≠ HAL_OK then some (HAL_ERROR, [burst])
      else
        match EEPROM_Write_DMA_loop hal fuel (k + 1) ((address + bytes_to_write) % 65536)
            (p_data.drop bytes_to_write) (size - bytes_to_write) with
        | none => none
        | some (st, bursts) => some (st, burst :: bursts)
    else some (HAL_OK, [])

/-- Function `EEPROM_Write_DMA`; `address` and `size` are converted to
`uint16_t`.  The loop is given `size` iterations, which
`EEPROM_Write_DMA_loop_isSome` shows to be enough. -/
def EEPROM_Write_DMA (hal : SpiHal) (address : Nat) (p_data : List Nat) (size : Nat) :
    Option (HAL_StatusTypeDef × List WriteBurst) :=
  EEPROM_Write_DMA_loop hal (size % 65536) 0 (address % 65536) p_data (size % 65536)

/-- The bytes a list of bursts puts on the device, as (device address, byte)
pairs in the order they are clocked out. -/
def burstWrites (bursts : List WriteBurst) : List (Nat × Nat) :=
  bursts.flatMap fun b => (List.range b.data.length).map fun j => (b.address + j, b.data.getD j 0)

/-- Closed form of the burst built by a loop iteration entered with `address`,
`p_data` and `size > 0`; `EEPROM_Write_DMA_loop_succ` relates it to the loop. -/
def nextBurst (address : Nat) (p_data : List Nat) (size : Nat) : WriteBurst :=
  ⟨address, eeprom_header EEPROM_CMD_WRITE address, min size (64 - address % 64),
    p_data.take (min size (64 - address % 64))⟩

/-- Bursts laid end to end from device address `a`: the first one starts at `a`
and each next one starts where the previous one ended. -/
def contiguousFrom : Nat → List WriteBurst → Prop
  | _, [] => True
  | a, b :: bs => b.address = a ∧ contiguousFrom (a + b.len) bs

/-! ## can_manager.h / can_manager.c -/

/-- Macro `CAN_DTC_TRANSMIT_ID`. -/
def CAN_DTC_TRANSMIT_ID : Nat := 0x18FF50E5
/-- Macro `CAN_DIAG_RECEIVE_ID`. -/
def CAN_DIAG_RECEIVE_ID : Nat := 0x18DB33F1

/-- The enumeration `CAN_Command_t`. -/
inductive CAN_Command_t where
  | CMD_NONE
  | CMD_CLEAR_DTC
  | CMD_READ_DTC
  deriving DecidableEq, Repr

open CAN_Command_t

/-- A frame accepted by `HAL_CAN_AddTxMessage`: the `ExtId` and `DLC` of
`tx_header` at the call and the eight bytes of `tx_payload`. -/
structure CanFrame where
  ExtId : Nat
  DLC : Nat
  payload : List Nat
  deriving DecidableEq, Repr

/-- The file-scope variables of `can_manager.c`, and the frames the CAN
peripheral has accepted so far (oldest first). -/
structure CanState where
  /-- Field `tx_header.ExtId`. -/
  tx_header_ExtId : Nat
  /-- Field `tx_header.DLC`. -/
  tx_header_DLC : Nat
  /-- Field `rx_header.ExtId`. -/
  rx_header_ExtId : Nat
  /-- Array `rx_data[8]`. -/
  rx_data : List Nat
  /-- Pointer `p_tx_data`: `none` is `NULL`, `some buf` points at the bytes `buf`. -/
  p_tx_data : Option (List Nat)
  /-- Variable `tx_data_size` (`uint16_t`). -/
  tx_data_size : Nat
  /-- Variable `tx_data_sent_count` (`uint16_t`). -/
  tx_data_sent_count : Nat
  /-- Variable `is_tx_in_progress` (`uint8_t`). -/
  is_tx_in_progress : Nat
  /-- Variable `received_command`. -/
  received_command : CAN_Command_t
  /-- Frames accepted by `HAL_CAN_AddTxMessage`. -/
  enqueued : List CanFrame
  deriving DecidableEq, Repr

/-- The variables as initialised at file scope, before `CAN_Manager_Init`. -/
def CanState.initial : CanState :=
  { tx_header_ExtId := 0, tx_header_DLC := 0, rx_header_ExtId := 0,
    rx_data := List.replicate 8 0, p_tx_data := none, tx_data_size := 0,
    tx_data_sent_count := 0, is_tx_in_progress := 0, received_command := CMD_NONE,
    enqueued := [] }

/-- Read of `p_tx_data[i]`. -/
def tx_byte (p_tx_data : Option (List Nat)) (i : Nat) : Nat :=
  match p_tx_data with
  | none => 0
  | some buf => buf.getD i 0

/-- The array `tx_payload` after `uint8_t tx_payload[8] = {0};` and
`for (int i = 0; i < bytes_to_send; i++) tx_payload[i] = p_tx_data[tx_data_sent_count + i];`. -/
def fill_tx_payload (p_tx_data : Option (List Nat)) (sent_count bytes_to_send : Nat) : List Nat :=
  (List.range bytes_to_send).foldl
    (fun tx_payload i => tx_payload.set i (tx_byte p_tx_data (sent_count + i)))
    (List.replicate 8 0)

/-- Function `CAN_Send_Next_Frame`; `add_tx` is the result of its call of
`HAL_CAN_AddTxMessage`, which enqueues the frame exactly when it returns `HAL_OK`. -/
def CAN_Send_Next_Frame (add_tx : HAL_StatusTypeDef) (s : CanState) : CanState :=
  if s.tx_data_sent_count ≥ s.tx_data_size then
    { s with is_tx_in_progress := 0 }
  else
    let bytes_to_send :=
      (if s.tx_data_size - s.tx_data_sent_count ≥ 8 then 8
       else s.tx_data_size - s.tx_data_sent_count) % 256
    let tx_payload := fill_tx_payload s.p_tx_data s.tx_data_sent_count bytes_to_send
    let s1 := { s with tx_header_DLC := bytes_to_send }
    if add_tx = HAL_OK then
      { s1 with
        tx_data_sent_count := (s1.tx_data_sent_count + bytes_to_send) % 65536
        enqueued := s1.enqueued ++ [⟨s1.tx_header_ExtId, s1.tx_header_DLC, tx_payload⟩] }
    else
      { s1 with is_tx_in_progress := 0 }

/-- Function `CAN_Manager_Transmit_DTC`: the returned status and the new state.
`dtc_data` is `none` for `NULL`; `size` is converted to `uint16_t`. -/
def CAN_Manager_Transmit_DTC (add_tx : HAL_StatusTypeDef) (dtc_data : Option (List Nat))
    (size : Nat) (s : CanState) : HAL_StatusTypeDef × CanState :=
  if s.is_tx_in_progress ≠ 0 then (HAL_BUSY, s)
  else if size % 65536 = 0 ∨ dtc_data = none then (HAL_ERROR, s)
  else
    (HAL_OK, CAN_Send_Next_Frame add_tx
      { s with
        p_tx_data := dtc_data
        tx_data_size := size % 65536
        tx_data_sent_count := 0
        is_tx_in_progress := 1 })

/-- Function `CAN_Manager_Get_Command`: the returned value and the state after
the call (`return received_command;` writes nothing). -/
def CAN_Manager_Get_Command (s : CanState) : CAN_Command_t × CanState :=
  (s.received_command, s)

/-- The values returned by `n` consecutive calls of `CAN_Manager_Get_Command`,
and the state after them. -/
def pollCommands : Nat → CanState → List CAN_Command_t × CanState
  | 0, s => ([], s)
  | n + 1, s =>
    ((CAN_Manager_Get_Command s).1 :: (pollCommands n (CAN_Manager_Get_Command s).2).1,
      (pollCommands n (CAN_Manager_Get_Command s).2).2)

/-- Function `CAN_Manager_Clear_Command`. -/
def CAN_Manager_Clear_Command (s : CanState) : CanState :=
  { s with received_command := CMD_NONE }

/-- Function `Process_CAN_Response`; `data` is the array the pointer refers to. -/
def Process_CAN_Response (data : List Nat) (s : CanState) : CanState :=
  if data.getD 0 0 = 0x31 then { s with received_command := CMD_CLEAR_DTC }
  else if data.getD 0 0 = 0x19 then { s with received_command := CMD_READ_DTC }
  else s

/-- Function `HAL_CAN_TxMailbox0CompleteCallback`. -/
def HAL_CAN_TxMailbox0CompleteCallback (add_tx : HAL_StatusTypeDef) (s : CanState) : CanState :=
  if s.is_tx_in_progress ≠ 0 then CAN_Send_Next_Frame add_tx s else s

/-- Function `HAL_CAN_TxMailbox1CompleteCallback`. -/
def HAL_CAN_TxMailbox1CompleteCallback (add_tx : HAL_StatusTypeDef) (s : CanState) : CanState :=
  if s.is_tx_in_progress ≠ 0 then CAN_Send_Next_Frame add_tx s else s

/-- Function `HAL_CAN_TxMailbox2CompleteCallback`. -/
def HAL_CAN_TxMailbox2CompleteCallback (add_tx : HAL_StatusTypeDef) (s : CanState) : CanState :=
  if s.is_tx_in_progress ≠ 0 then CAN_Send_Next_Frame add_tx s else s

/-- Function `HAL_CAN_RxFifo0MsgPendingCallback`.  `get_rx` is the result of
`HAL_CAN_GetRxMessage`, which on `HAL_OK` has stored the identifier `ext_id`
and the payload `data` of the received frame in `rx_header` and `rx_data`. -/
def HAL_CAN_RxFifo0MsgPendingCallback (get_rx : HAL_StatusTypeDef) (ext_id : Nat)
    (data : List Nat) (s : CanState) : CanState :=
  if get_rx = HAL_OK then
    let s1 := { s with rx_header_ExtId := ext_id, rx_data := data }
    if s1.rx_header_ExtId = CAN_DIAG_RECEIVE_ID then Process_CAN_Response s1.rx_data s1
    else s1
  else s

/-- The transmit-complete interrupt of mailbox `mailbox` (0, 1 or 2). -/
def txCompleteCallback (mailbox : Nat) (add_tx : HAL_StatusTypeDef) (s : CanState) : CanState :=
  match mailbox with
  | 0 => HAL_CAN_TxMailbox0CompleteCallback add_tx s
  | 1 => HAL_CAN_TxMailbox1CompleteCallback add_tx s
  | _ => HAL_CAN_TxMailbox2CompleteCallback add_tx s

/-- A run of transmit-complete interrupts: each entry names the mailbox that
completed and gives the result of the `HAL_CAN_AddTxMessage` call made in that
callback (unused when the callback sends nothing). -/
def txCompletions : List (Nat × HAL_StatusTypeDef) → CanState → CanState
  | [], s => s
  | (mailbox, add_tx) :: rest, s => txCompletions rest (txCompleteCallback mailbox add_tx s)

/-- The state with a 20-byte job in flight: `CAN_Manager_Transmit_DTC` accepted
the bytes `0 .. 19` from the initial state and the first frame was enqueued. -/
def jobInFlight : CanState :=
  (CAN_Manager_Transmit_DTC HAL_OK (some (List.range 20)) 20 CanState.initial).2

/-- One entry into `can_manager.c`, with the arguments of the call and the
results of the HAL calls it makes. -/
inductive CanEvent where
  /-- A call `CAN_Manager_Transmit_DTC(hcan, dtc_data, size)`. -/
  | transmit (add_tx : HAL_StatusTypeDef) (dtc_data : Option (List Nat)) (size : Nat)
  /-- The transmit-complete interrupt of a mailbox. -/
  | txComplete (mailbox : Nat) (add_tx : HAL_StatusTypeDef)
  /-- The receive-pending interrupt of FIFO 0. -/
  | rxPending (get_rx : HAL_StatusTypeDef) (ext_id : Nat) (data : List Nat)
  /-- A call `CAN_Manager_Clear_Command()`. -/
  | clearCommand

/-- The state after one event. -/
def CanEvent.step (e : CanEvent) (s : CanState) : CanState :=
  match e with
  | .transmit add_tx dtc_data size => (CAN_Manager_Transmit_DTC add_tx dtc_data size s).2
  | .txComplete mailbox add_tx => txCompleteCallback mailbox add_tx s
  | .rxPending get_rx ext_id data => HAL_CAN_RxFifo0MsgPendingCallback get_rx ext_id data s
  | .clearCommand => CAN_Manager_Clear_Command s

/-- The state after a sequence of events, each running to its end before the
next one starts. -/
def runEvents : List CanEvent → CanState → CanState
  | [], s => s
  | e :: rest, s => runEvents rest (e.step s)

/-- A transmit call whose `size` does not exceed the bytes behind `dtc_data`
(the other events carry no buffer). -/
def CanEvent.sizeWithinBuffer : CanEvent → Prop
  | .transmit _ (some buf) size => size % 65536 ≤ buf.length
  | _ => True

/-- The indices at which `CAN_Send_Next_Frame`, entered in state `s`, reads
`p_tx_data`: none after the early return, else `tx_data_sent_count + i` for
`i = 0 .. bytes_to_send - 1`. -/
def tx_read_indices (s : CanState) : List Nat :=
  if s.tx_data_sent_count ≥ s.tx_data_size then []
  else
    (List.range ((if s.tx_data_size - s.tx_data_sent_count ≥ 8 then 8
        else s.tx_data_size - s.tx_data_sent_count) % 256)).map
      fun i => s.tx_data_sent_count + i

/-- Frame number `j` (from 0) of a job over the bytes `buf` with length argument
`size`, as the theorems below state it: `DLC = min 8 (size - 8 * j)` and the
payload array filled from `buf` at offset `8 * j`. -/
def jobFrame (ext_id : Nat) (buf : List Nat) (size j : Nat) : CanFrame :=
  ⟨ext_id, min 8 (size - 8 * j), fill_tx_payload (some buf) (8 * j) (min 8 (size - 8 * j))⟩

/-! # Theorems -/

/-! ## Bit-level helper lemmas -/

theorem one_shiftLeft_mod (c : Nat) (hc : c < 32) : (1 <<< c) % 2 ^ 32 = 2 ^ c := by
  rw [Nat.one_shiftLeft]
  exact Nat.mod_eq_of_lt (Nat.pow_lt_pow_right (by decide) hc)

theorem and_one_shiftLeft_ne_zero (x c : Nat) (hc : c < 32) :
    (x &&& (1 <<< c) % 2 ^ 32 ≠ 0) ↔ x.testBit c = true := by
  rw [one_shiftLeft_mod c hc, Nat.and_two_pow]
  cases h : x.testBit c <;> simp [h]

theorem testBit_not32 (x i : Nat) :
    (not32 x).testBit i = (decide (i < 32) && !x.testBit i) := by
  have h : not32 x = 2 ^ 32 - (x % 2 ^ 32 + 1) := by
    unfold not32; omega
  rw [h, Nat.testBit_two_pow_sub_succ (Nat.mod_lt _ (by decide)), Nat.testBit_mod_two_pow]
  by_cases hi : i < 32 <;> simp [hi]

theorem DTC_IsSet_eq_testBit (c : Nat) (s : DtcState) (hc : c < DTC_CODE_COUNT) :
    DTC_IsSet c s = s.dtc_status_bitmask.testBit c := by
  have hc32 : c < 32 := by unfold DTC_CODE_COUNT at hc; omega
  unfold DTC_IsSet
  rw [if_pos hc]
  cases h : s.dtc_status_bitmask.testBit c
  · have := (and_one_shiftLeft_ne_zero s.dtc_status_bitmask c hc32).not.mpr (by simp [h])
    simpa using this
  · have := (and_one_shiftLeft_ne_zero s.dtc_status_bitmask c hc32).mpr h
    simpa using this

/-! ## DTC store -/

/-- C1: for every valid code `c` (`c < DTC_CODE_COUNT`) and every prior state,
`DTC_IsSet c` is true right after `DTC_Set c` and false right after `DTC_Clear c`. -/
theorem DTC_IsSet_after_Set_and_Clear (c : Nat) (s : DtcState) (hc : c < DTC_CODE_COUNT) :
    DTC_IsSet c (DTC_Set c s) = true ∧ DTC_IsSet c (DTC_Clear c s) = false := by
  have hc32 : c < 32 := by unfold DTC_CODE_COUNT at hc; omega
  constructor
  · rw [DTC_IsSet_eq_testBit c _ hc]
    unfold DTC_Set
    rw [if_pos hc]
    show ((s.dtc_status_bitmask ||| (1 <<< c) % 2 ^ 32) % 2 ^ 32).testBit c = true
    rw [Nat.testBit_mod_two_pow, Nat.testBit_or, one_shiftLeft_mod c hc32,
      Nat.testBit_two_pow_self]
    simp [hc32]
  · rw [DTC_IsSet_eq_testBit c _ hc]
    unfold DTC_Clear
    rw [if_pos hc]
    show ((s.dtc_status_bitmask &&& not32 (1 <<< c)) % 2 ^ 32).testBit c = false
    rw [Nat.testBit_mod_two_pow, Nat.testBit_and, testBit_not32, Nat.one_shiftLeft,
      Nat.testBit_two_pow_self]
    simp

/-- Witness for C1 at code 2 and mask `0xFFFFFFFB`. -/
theorem DTC_IsSet_after_Set_and_Clear_witness :
    DTC_IsSet 2 (DTC_Set 2 ⟨0xFFFFFFFB, fun _ => 0⟩) = true
      ∧ DTC_IsSet 2 (DTC_Clear 2 ⟨0xFFFFFFFB, fun _ => 0⟩) = false :=
  DTC_IsSet_after_Set_and_Clear 2 ⟨0xFFFFFFFB, fun _ => 0⟩ (by decide)

/-- C2: for every code `c ≥ DTC_CODE_COUNT` and every state, `DTC_Set c` and
`DTC_Clear c` return the state unchanged (so the mask is unchanged) and
`DTC_IsSet c` is false, whatever bit `c` of the mask is. -/
theorem DTC_out_of_range_rejected (c : Nat) (s : DtcState) (hc : DTC_CODE_COUNT ≤ c) :
    DTC_Set c s = s ∧ DTC_Clear c s = s ∧ DTC_IsSet c s = false := by
  have h : ¬ c < DTC_CODE_COUNT := Nat.not_lt.mpr hc
  simp [DTC_Set, DTC_Clear, DTC_IsSet, h]

/-- Witness for C2: code 4 on the all-ones mask, as left by
`DTC_SetStatusBitmask 0xFFFFFFFF`. -/
theorem DTC_out_of_range_rejected_witness :
    DTC_Set 4 (DTC_SetStatusBitmask 0xFFFFFFFF ⟨0, fun _ => 0⟩)
        = DTC_SetStatusBitmask 0xFFFFFFFF ⟨0, fun _ => 0⟩
      ∧ DTC_Clear 4 (DTC_SetStatusBitmask 0xFFFFFFFF ⟨0, fun _ => 0⟩)
        = DTC_SetStatusBitmask 0xFFFFFFFF ⟨0, fun _ => 0⟩
      ∧ DTC_IsSet 4 (DTC_SetStatusBitmask 0xFFFFFFFF ⟨0, fun _ => 0⟩) = false :=
  DTC_out_of_range_rejected 4 (DTC_SetStatusBitmask 0xFFFFFFFF ⟨0, fun _ => 0⟩) (by decide)

/-- C3: for every 32-bit value `m`, `DTC_GetStatusBitmask` right after
`DTC_SetStatusBitmask m` returns exactly `m`: no bit is filtered, also at
positions `DTC_CODE_COUNT` and above. -/
theorem DTC_SetStatusBitmask_GetStatusBitmask (m : Nat) (s : DtcState) (hm : m < 2 ^ 32) :
    DTC_GetStatusBitmask (DTC_SetStatusBitmask m s) = m := by
  show m % 2 ^ 32 = m
  exact Nat.mod_eq_of_lt hm

/-- Witness for C3 at the all-ones mask. -/
theorem DTC_SetStatusBitmask_GetStatusBitmask_witness :
    DTC_GetStatusBitmask (DTC_SetStatusBitmask 0xFFFFFFFF ⟨0, fun _ => 0⟩) = 0xFFFFFFFF :=
  DTC_SetStatusBitmask_GetStatusBitmask 0xFFFFFFFF ⟨0, fun _ => 0⟩ (by decide)

/-- C4, refuted as stated: with the word `0x00000005` stored in the device (here at
address 0), after `DTC_Init` codes 0 and 2 are not set. -/
theorem DTC_Init_ignores_snapshot :
    snapshotWord eepromHolding5 0 = 0x00000005
      ∧ DTC_IsSet 0 (DTC_Init ⟨0, eepromHolding5⟩) = false
      ∧ DTC_IsSet 2 (DTC_Init ⟨0, eepromHolding5⟩) = false := by
  refine ⟨by decide, by decide, by decide⟩

/-- C4, amended: `DTC_Init` sets the mask to zero and does not consult the
device: whatever the device and the prior mask hold, afterwards the mask is 0,
the device contents are the same, and `DTC_IsSet c` is false for every code `c`. -/
theorem DTC_Init_clears_mask (s : DtcState) (c : Nat) :
    DTC_GetStatusBitmask (DTC_Init s) = 0
      ∧ (DTC_Init s).eeprom = s.eeprom
      ∧ DTC_IsSet c (DTC_Init s) = false := by
  simp [DTC_GetStatusBitmask, DTC_Init, DTC_IsSet]

/-! ## EEPROM driver: the page-splitting loop -/

theorem bytes_to_write_eq (address size : Nat) :
    (if size > (EEPROM_PAGE_SIZE - (address % EEPROM_PAGE_SIZE) % 65536) % 65536
      then (EEPROM_PAGE_SIZE - (address % EEPROM_PAGE_SIZE) % 65536) % 65536 else size)
      = min size (64 - address % 64) := by
  unfold EEPROM_PAGE_SIZE
  split <;> omega

theorem EEPROM_Write_DMA_loop_zero_size (hal : SpiHal) (fuel k address : Nat)
    (p_data : List Nat) :
    EEPROM_Write_DMA_loop hal fuel k address p_data 0 = some (HAL_OK, []) := by
  cases fuel <;> simp [EEPROM_Write_DMA_loop]

theorem EEPROM_Write_DMA_loop_succ (hal : SpiHal) (fuel k address size : Nat)
    (p_data : List Nat) (hs : 0 < size) :
    EEPROM_Write_DMA_loop hal (fuel + 1) k address p_data size =
      if hal.transmit k ≠ HAL_OK then some (HAL_ERROR, [nextBurst address p_data size])
      else if hal.transmit_dma k ≠ HAL_OK then some (HAL_ERROR, [nextBurst address p_data size])
      else (EEPROM_Write_DMA_loop hal fuel (k + 1)
              ((address + min size (64 - address % 64)) % 65536)
              (p_data.drop (min size (64 - address % 64)))
              (size - min size (64 - address % 64))).map
            fun r => (r.1, nextBurst address p_data size :: r.2) := by
  rw [EEPROM_Write_DMA_loop]
  simp only [bytes_to_write_eq, gt_iff_lt, hs, if_true, nextBurst]
  split
  · rfl
  · split
    · rfl
    · cases EEPROM_Write_DMA_loop hal fuel (k + 1)
              ((address + min size (64 - address % 64)) % 65536)
              (p_data.drop (min size (64 - address % 64)))
              (size - min size (64 - address % 64)) <;> rfl

theorem EEPROM_Write_DMA_loop_isSome (hal : SpiHal) (fuel : Nat) :
    ∀ (k address size : Nat) (p_data : List Nat), size ≤ fuel →
      ∃ r, EEPROM_Write_DMA_loop hal fuel k address p_data size = some r := by
  induction fuel with
  | zero =>
    intro k address size p_data h
    have : size = 0 := by omega
    subst this
    exact ⟨_, EEPROM_Write_DMA_loop_zero_size hal 0 k address p_data⟩
  | succ fuel ih =>
    intro k address size p_data h
    rcases Nat.eq_zero_or_pos size with h0 | hs
    · subst h0
      exact ⟨_, EEPROM_Write_DMA_loop_zero_size hal _ k address p_data⟩
    · rw [EEPROM_Write_DMA_loop_succ hal fuel k address size p_data hs]
      split
      · exact ⟨_, rfl⟩
      · split
        · exact ⟨_, rfl⟩
        · obtain ⟨r, hr⟩ := ih (k + 1) ((address + min size (64 - address % 64)) % 65536)
            (size - min size (64 - address % 64)) (p_data.drop (min size (64 - address % 64)))
            (by omega)
          rw [hr]
          exact ⟨_, rfl⟩

theorem nextBurst_within_page (address size : Nat) (p_data : List Nat) (hs : 0 < size) :
    1 ≤ (nextBurst address p_data size).len
      ∧ (nextBurst address p_data size).len ≤ EEPROM_PAGE_SIZE
      ∧ (nextBurst address p_data size).address / EEPROM_PAGE_SIZE
          = ((nextBurst address p_data size).address + (nextBurst address p_data size).len - 1)
              / EEPROM_PAGE_SIZE := by
  simp only [nextBurst, EEPROM_PAGE_SIZE]
  omega

theorem EEPROM_Write_DMA_loop_within_page (hal : SpiHal) (fuel : Nat) :
    ∀ (k address size : Nat) (p_data : List Nat) (r : HAL_StatusTypeDef × List WriteBurst),
      EEPROM_Write_DMA_loop hal fuel k address p_data size = some r →
      ∀ b ∈ r.2, 1 ≤ b.len ∧ b.len ≤ EEPROM_PAGE_SIZE
        ∧ b.address / EEPROM_PAGE_SIZE = (b.address + b.len - 1) / EEPROM_PAGE_SIZE := by
  induction fuel with
  | zero =>
    intro k address size p_data r h b hb
    rcases Nat.eq_zero_or_pos size with h0 | hs
    · subst h0
      rw [EEPROM_Write_DMA_loop_zero_size] at h
      cases h
      simp at hb
    · simp [EEPROM_Write_DMA_loop, hs] at h
  | succ fuel ih =>
    intro k address size p_data r h b hb
    rcases Nat.eq_zero_or_pos size with h0 | hs
    · subst h0
      rw [EEPROM_Write_DMA_loop_zero_size] at h
      cases h
      simp at hb
    · rw [EEPROM_Write_DMA_loop_succ hal fuel k address size p_data hs] at h
      split at h
      · cases h
        simp only [List.mem_singleton] at hb
        subst hb
        exact nextBurst_within_page address size p_data hs
      · split at h
        · cases h
          simp only [List.mem_singleton] at hb
          subst hb
          exact nextBurst_within_page address size p_data hs
        · cases hrec : EEPROM_Write_DMA_loop hal fuel (k + 1)
              ((address + min size (64 - address % 64)) % 65536)
              (p_data.drop (min size (64 - address % 64)))
              (size - min size (64 - address % 64)) with
          | none => rw [hrec] at h; cases h
          | some r1 =>
            rw [hrec] at h
            cases h
            rcases List.mem_cons.mp hb with hb1 | hb2
            · subst hb1
              exact nextBurst_within_page address size p_data hs
            · exact ih _ _ _ _ r1 hrec b hb2

/-- C6: for every address and size (converted to 16 bits on entry), every HAL
behaviour and every buffer, `EEPROM_Write_DMA` returns, and every burst
`(a, n)` it starts stays inside one device page: `1 ≤ n ≤ EEPROM_PAGE_SIZE` and
`a / EEPROM_PAGE_SIZE = (a + n - 1) / EEPROM_PAGE_SIZE`. -/
theorem EEPROM_Write_DMA_bursts_within_page (hal : SpiHal) (address size : Nat)
    (p_data : List Nat) :
    ∃ st bursts, EEPROM_Write_DMA hal address p_data size = some (st, bursts)
      ∧ ∀ b ∈ bursts, 1 ≤ b.len ∧ b.len ≤ EEPROM_PAGE_SIZE
          ∧ b.address / EEPROM_PAGE_SIZE = (b.address + b.len - 1) / EEPROM_PAGE_SIZE := by
  obtain ⟨r, hr⟩ := EEPROM_Write_DMA_loop_isSome hal (size % 65536) 0 (address % 65536)
    (size % 65536) p_data (Nat.le_refl _)
  exact ⟨r.1, r.2, hr, EEPROM_Write_DMA_loop_within_page hal _ _ _ _ _ r hr⟩

theorem EEPROM_Write_DMA_loop_succ_allOk (fuel k address size : Nat)
    (p_data : List Nat) (hs : 0 < size) :
    EEPROM_Write_DMA_loop SpiHal.allOk (fuel + 1) k address p_data size =
      (EEPROM_Write_DMA_loop SpiHal.allOk fuel (k + 1)
              ((address + min size (64 - address % 64)) % 65536)
              (p_data.drop (min size (64 - address % 64)))
              (size - min size (64 - address % 64))).map
            fun r => (r.1, nextBurst address p_data size :: r.2) := by
  rw [EEPROM_Write_DMA_loop_succ SpiHal.allOk fuel k address size p_data hs]
  simp [SpiHal.allOk]

/-- C5: for every page index `k ≥ 1` with `64 * k - 5 + 74 ≤ EEPROM_TOTAL_SIZE`,
writing `EEPROM_PAGE_SIZE + 10` bytes at address `64 * k - 5` with every HAL call
succeeding returns `HAL_OK` after exactly three bursts, of lengths 5, 64 and 5,
at addresses `64 * k - 5`, `64 * k` and `64 * (k + 1)`, in that order. -/
theorem EEPROM_Write_DMA_page_plus_ten (k : Nat) (p_data : List Nat) (hk : 1 ≤ k)
    (hcap : 64 * k - 5 + 74 ≤ EEPROM_TOTAL_SIZE) :
    EEPROM_Write_DMA SpiHal.allOk (64 * k - 5) p_data (EEPROM_PAGE_SIZE + 10)
      = some (HAL_OK,
          [⟨64 * k - 5, eeprom_header EEPROM_CMD_WRITE (64 * k - 5), 5, p_data.take 5⟩,
           ⟨64 * k, eeprom_header EEPROM_CMD_WRITE (64 * k), 64, (p_data.drop 5).take 64⟩,
           ⟨64 * (k + 1), eeprom_header EEPROM_CMD_WRITE (64 * (k + 1)), 5,
              (p_data.drop 69).take 5⟩]) := by
  unfold EEPROM_TOTAL_SIZE at hcap
  have e1 : (EEPROM_PAGE_SIZE + 10) % 65536 = 73 + 1 := by decide
  have e2 : (64 * k - 5) % 65536 = 64 * k - 5 := by omega
  have m1 : min (73 + 1) (64 - (64 * k - 5) % 64) = 5 := by omega
  have a1 : (64 * k - 5 + 5) % 65536 = 64 * k := by omega
  have m2 : min (72 + 1 - 4) (64 - (64 * k) % 64) = 64 := by omega
  have a2 : (64 * k + 64) % 65536 = 64 * (k + 1) := by omega
  have m3 : min 5 (64 - (64 * (k + 1)) % 64) = 5 := by omega
  unfold EEPROM_Write_DMA
  rw [e1, e2, EEPROM_Write_DMA_loop_succ_allOk _ _ _ _ _ (by omega), m1, a1]
  show Option.map _ (EEPROM_Write_DMA_loop SpiHal.allOk (72 + 1) 1 (64 * k)
    (List.drop 5 p_data) (72 + 1 - 4)) = _
  rw [EEPROM_Write_DMA_loop_succ_allOk _ _ _ _ _ (by omega), m2, a2]
  show Option.map _ (Option.map _ (EEPROM_Write_DMA_loop SpiHal.allOk (71 + 1) 2
    (64 * (k + 1)) (List.drop 64 (List.drop 5 p_data)) 5)) = _
  rw [EEPROM_Write_DMA_loop_succ_allOk _ _ _ _ _ (by omega), m3]
  show Option.map _ (Option.map _ (Option.map _
    (EEPROM_Write_DMA_loop SpiHal.allOk 71 3 _ _ 0))) = _
  rw [EEPROM_Write_DMA_loop_zero_size]
  simp [nextBurst, m1, m2, m3]

/-- Witness for C5: page index 1 (address 59) and a buffer of 74 bytes `0xAB`. -/
theorem EEPROM_Write_DMA_page_plus_ten_witness :
    EEPROM_Write_DMA SpiHal.allOk (64 * 1 - 5) (List.replicate 74 0xAB) (EEPROM_PAGE_SIZE + 10)
      = some (HAL_OK,
          [⟨64 * 1 - 5, eeprom_header EEPROM_CMD_WRITE (64 * 1 - 5), 5,
              (List.replicate 74 0xAB).take 5⟩,
           ⟨64 * 1, eeprom_header EEPROM_CMD_WRITE (64 * 1), 64,
              ((List.replicate 74 0xAB).drop 5).take 64⟩,
           ⟨64 * (1 + 1), eeprom_header EEPROM_CMD_WRITE (64 * (1 + 1)), 5,
              ((List.replicate 74 0xAB).drop 69).take 5⟩]) :=
  EEPROM_Write_DMA_page_plus_ten 1 (List.replicate 74 0xAB) (by decide) (by decide)

theorem burstWrites_cons (b : WriteBurst) (bs : List WriteBurst) :
    burstWrites (b :: bs)
      = (List.range b.data.length).map (fun j => (b.address + j, b.data.getD j 0))
          ++ burstWrites bs := by
  simp [burstWrites]

theorem nextBurst_writes (a n : Nat) (p : List Nat) (hn : n ≤ p.length) :
    (List.range (p.take n).length).map (fun j => (a + j, (p.take n).getD j 0))
      = (List.range n).map (fun j => (a + j, p.getD j 0)) := by
  rw [List.length_take, Nat.min_eq_left hn]
  apply List.map_congr_left
  intro j hj
  have hj' : j < n := List.mem_range.mp hj
  simp [List.getD_eq_getElem?_getD, List.getElem?_take, hj']

theorem range_map_split (n size : Nat) (hn : n ≤ size) (f : Nat → Nat × Nat) :
    (List.range size).map f
      = (List.range n).map f ++ (List.range (size - n)).map (fun i => f (n + i)) := by
  have h : size = n + (size - n) := by omega
  conv_lhs => rw [h, List.range_add]
  simp [List.map_append, List.map_map, Function.comp_def]

theorem EEPROM_Write_DMA_loop_tiles (fuel : Nat) :
    ∀ (k a size : Nat) (p : List Nat), size ≤ fuel → a + size ≤ 65536 → size ≤ p.length →
      ∃ bursts, EEPROM_Write_DMA_loop SpiHal.allOk fuel k a p size = some (HAL_OK, bursts)
        ∧ contiguousFrom a bursts
        ∧ (bursts.map (fun b => b.len)).sum = size
        ∧ (∀ b ∈ bursts, b.data.length = b.len)
        ∧ (bursts.map (fun b => b.data)).flatten = p.take size
        ∧ burstWrites bursts = (List.range size).map (fun i => (a + i, p.getD i 0)) := by
  induction fuel with
  | zero =>
    intro k a size p h _ _
    have : size = 0 := by omega
    subst this
    exact ⟨[], EEPROM_Write_DMA_loop_zero_size _ 0 k a p, by simp [contiguousFrom, burstWrites]⟩
  | succ fuel ih =>
    intro k a size p hf ha hp
    rcases Nat.eq_zero_or_pos size with h0 | hs
    · subst h0
      exact ⟨[], EEPROM_Write_DMA_loop_zero_size _ _ k a p, by simp [contiguousFrom, burstWrites]⟩
    · rw [EEPROM_Write_DMA_loop_succ_allOk fuel k a size p hs]
      generalize hn : min size (64 - a % 64) = n
      have hn1 : 1 ≤ n := by omega
      have hn2 : n ≤ size := by omega
      have hb : nextBurst a p size = ⟨a, eeprom_header EEPROM_CMD_WRITE a, n, p.take n⟩ := by
        simp [nextBurst, hn]
      have hlen : (p.take n).length = n := by
        rw [List.length_take]; omega
      rcases Nat.eq_or_lt_of_le hn2 with he | hlt
      · -- the burst is the last one
        have hz : size - n = 0 := by omega
        rw [hz, EEPROM_Write_DMA_loop_zero_size, hb]
        refine ⟨_, rfl, ?_, ?_, ?_, ?_, ?_⟩
        · simp [contiguousFrom]
        · simp [he]
        · intro b hb'
          simp only [List.mem_singleton] at hb'
          subst hb'
          exact hlen
        · simp [he]
        · rw [burstWrites_cons]
          simp only [burstWrites, List.flatMap_nil, List.append_nil]
          rw [nextBurst_writes a n p (by omega), he]
      · have ha' : (a + n) % 65536 = a + n := Nat.mod_eq_of_lt (by omega)
        obtain ⟨bs, hbs, hc, hsum, hdl, hcat, hw⟩ :=
          ih (k + 1) (a + n) (size - n) (p.drop n) (by omega) (by omega)
            (by rw [List.length_drop]; omega)
        rw [ha', hbs, hb]
        refine ⟨_, rfl, ?_, ?_, ?_, ?_, ?_⟩
        · exact ⟨rfl, hc⟩
        · simp only [List.map_cons, List.sum_cons, hsum]
          omega
        · intro b hb'
          rcases List.mem_cons.mp hb' with h1 | h2
          · subst h1; exact hlen
          · exact hdl b h2
        · simp only [List.map_cons, List.flatten_cons, hcat]
          have : size = n + (size - n) := by omega
          conv_rhs => rw [this, List.take_add]
        · rw [burstWrites_cons, hw]
          simp only []
          rw [nextBurst_writes a n p (by omega),
            range_map_split n size hn2 (fun i => (a + i, p.getD i 0))]
          congr 1
          apply List.map_congr_left
          intro i _
          simp [List.getD_eq_getElem?_getD, List.getElem?_drop, Nat.add_assoc]

/-- C7: for every address and size with `address + size ≤ EEPROM_TOTAL_SIZE`, a
buffer holding at least `size` bytes and every HAL call succeeding,
`EEPROM_Write_DMA` returns `HAL_OK` and its bursts tile the request: the first
starts at `address` and each next one where the previous ended, every burst
carries as many bytes as its length, the lengths sum to `size`, the
concatenated burst data is the first `size` bytes of the buffer, and the bytes
clocked out are exactly byte `i` of the buffer at device address `address + i`
for `i = 0 .. size - 1`, in that order. -/
theorem EEPROM_Write_DMA_tiles_request (address size : Nat) (p_data : List Nat)
    (hcap : address + size ≤ EEPROM_TOTAL_SIZE) (hbuf : size ≤ p_data.length) :
    ∃ bursts, EEPROM_Write_DMA SpiHal.allOk address p_data size = some (HAL_OK, bursts)
      ∧ contiguousFrom address bursts
      ∧ (bursts.map (fun b => b.len)).sum = size
      ∧ (∀ b ∈ bursts, b.data.length = b.len)
      ∧ (bursts.map (fun b => b.data)).flatten = p_data.take size
      ∧ burstWrites bursts = (List.range size).map (fun i => (address + i, p_data.getD i 0)) := by
  unfold EEPROM_TOTAL_SIZE at hcap
  have h1 : size % 65536 = size := Nat.mod_eq_of_lt (by omega)
  have h2 : address % 65536 = address := Nat.mod_eq_of_lt (by omega)
  unfold EEPROM_Write_DMA
  rw [h1, h2]
  exact EEPROM_Write_DMA_loop_tiles size 0 address size p_data (Nat.le_refl _) (by omega) hbuf

/-- Witness for C7: 20 bytes `0 .. 19` written at address 120, across the page
boundary at 128. -/
theorem EEPROM_Write_DMA_tiles_request_witness :
    ∃ bursts, EEPROM_Write_DMA SpiHal.allOk 120 (List.range 20) 20 = some (HAL_OK, bursts)
      ∧ contiguousFrom 120 bursts
      ∧ (bursts.map (fun b => b.len)).sum = 20
      ∧ (∀ b ∈ bursts, b.data.length = b.len)
      ∧ (bursts.map (fun b => b.data)).flatten = (List.range 20).take 20
      ∧ burstWrites bursts
          = (List.range 20).map (fun i => (120 + i, (List.range 20).getD i 0)) :=
  EEPROM_Write_DMA_tiles_request 120 20 (List.range 20) (by decide) (by decide)

/-! ## Diagnostic transport: transmission -/

theorem CAN_Send_Next_Frame_ok (s : CanState) (h : s.tx_data_sent_count < s.tx_data_size)
    (h16 : s.tx_data_size ≤ 65535) :
    CAN_Send_Next_Frame HAL_OK s =
      { s with
        tx_header_DLC := min 8 (s.tx_data_size - s.tx_data_sent_count)
        tx_data_sent_count := s.tx_data_sent_count + min 8 (s.tx_data_size - s.tx_data_sent_count)
        enqueued := s.enqueued ++ [⟨s.tx_header_ExtId,
          min 8 (s.tx_data_size - s.tx_data_sent_count),
          fill_tx_payload s.p_tx_data s.tx_data_sent_count
            (min 8 (s.tx_data_size - s.tx_data_sent_count))⟩] } := by
  have hb : (if s.tx_data_size - s.tx_data_sent_count ≥ 8 then 8
       else s.tx_data_size - s.tx_data_sent_count) % 256
      = min 8 (s.tx_data_size - s.tx_data_sent_count) := by
    split <;> omega
  have hc : (s.tx_data_sent_count + min 8 (s.tx_data_size - s.tx_data_sent_count)) % 65536
      = s.tx_data_sent_count + min 8 (s.tx_data_size - s.tx_data_sent_count) := by
    omega
  unfold CAN_Send_Next_Frame
  rw [if_neg (by omega)]
  simp only [hb, hc, if_true]

theorem CAN_Send_Next_Frame_done (add_tx : HAL_StatusTypeDef) (s : CanState)
    (h : s.tx_data_size ≤ s.tx_data_sent_count) :
    CAN_Send_Next_Frame add_tx s = { s with is_tx_in_progress := 0 } := by
  unfold CAN_Send_Next_Frame
  rw [if_pos h]

theorem txCompleteCallback_eq (mailbox : Nat) (add_tx : HAL_StatusTypeDef) (s : CanState) :
    txCompleteCallback mailbox add_tx s
      = if s.is_tx_in_progress ≠ 0 then CAN_Send_Next_Frame add_tx s else s := by
  unfold txCompleteCallback
  split <;> rfl

theorem txCompletions_idle (evs : List (Nat × HAL_StatusTypeDef)) (s : CanState)
    (h : s.is_tx_in_progress = 0) : txCompletions evs s = s := by
  induction evs with
  | nil => rfl
  | cons e rest ih =>
    obtain ⟨m, a⟩ := e
    simp only [txCompletions, txCompleteCallback_eq, h, ne_eq, not_true, if_false]
    exact ih


theorem txCompletions_job (buf : List Nat) (L : Nat) (hL : L ≤ 65535) :
    ∀ (mbs : List Nat) (s : CanState) (j : Nat),
      s.p_tx_data = some buf → s.tx_data_size = L → s.tx_data_sent_count = min (8 * j) L →
      s.is_tx_in_progress = 1 → j ≤ (L + 7) / 8 →
      (txCompletions (mbs.map fun m => (m, HAL_OK)) s).enqueued
          = s.enqueued ++ (List.range' j (min (j + mbs.length) ((L + 7) / 8) - j)).map
              (jobFrame s.tx_header_ExtId buf L)
        ∧ (txCompletions (mbs.map fun m => (m, HAL_OK)) s).tx_data_sent_count
            = min (8 * (j + mbs.length)) L
        ∧ (txCompletions (mbs.map fun m => (m, HAL_OK)) s).is_tx_in_progress
            = (if j + mbs.length ≤ (L + 7) / 8 then 1 else 0)
        ∧ (txCompletions (mbs.map fun m => (m, HAL_OK)) s).p_tx_data = some buf
        ∧ (txCompletions (mbs.map fun m => (m, HAL_OK)) s).tx_data_size = L
        ∧ (txCompletions (mbs.map fun m => (m, HAL_OK)) s).tx_header_ExtId
            = s.tx_header_ExtId := by
  intro mbs
  induction mbs with
  | nil =>
    intro s j hp hs hc hf hj
    have h0 : min j ((L + 7) / 8) - j = 0 := by omega
    simp only [List.map_nil, txCompletions, List.length_nil, Nat.add_zero, h0,
      List.range'_zero, List.append_nil, hj, if_true]
    exact ⟨trivial, hc, hf, hp, hs, trivial⟩
  | cons m rest ih =>
    intro s j hp hs hc hf hj
    simp only [List.map_cons, txCompletions, txCompleteCallback_eq, hf, ne_eq,
      Nat.one_ne_zero, not_false_eq_true, if_true, List.length_cons]
    rcases Nat.lt_or_ge j ((L + 7) / 8) with hlt | hge
    · have hc' : s.tx_data_sent_count = 8 * j := by omega
      have hlt' : s.tx_data_sent_count < s.tx_data_size := by omega
      rw [CAN_Send_Next_Frame_ok s hlt' (by omega)]
      obtain ⟨h1, h2, h3, h4, h5, h6⟩ := ih
        { s with
          tx_header_DLC := min 8 (s.tx_data_size - s.tx_data_sent_count)
          tx_data_sent_count :=
            s.tx_data_sent_count + min 8 (s.tx_data_size - s.tx_data_sent_count)
          enqueued := s.enqueued ++ [⟨s.tx_header_ExtId,
            min 8 (s.tx_data_size - s.tx_data_sent_count),
            fill_tx_payload s.p_tx_data s.tx_data_sent_count
              (min 8 (s.tx_data_size - s.tx_data_sent_count))⟩] }
        (j + 1) hp hs (by simp only []; omega) hf (by omega)
      refine ⟨?_, ?_, ?_, h4, h5, h6⟩
      · rw [h1]
        have hcnt : min (j + (rest.length + 1)) ((L + 7) / 8) - j
            = (min (j + 1 + rest.length) ((L + 7) / 8) - (j + 1)) + 1 := by omega
        rw [hcnt, List.range'_succ]
        simp only [List.map_cons, List.append_assoc, List.singleton_append, jobFrame, hp, hs,
          hc']
      · rw [h2]; congr 1; omega
      · rw [h3]
        have : j + 1 + rest.length = j + (rest.length + 1) := by omega
        rw [this]
    · have hjN : j = (L + 7) / 8 := by omega
      have hc' : s.tx_data_size ≤ s.tx_data_sent_count := by omega
      rw [CAN_Send_Next_Frame_done HAL_OK s hc', txCompletions_idle _ _ rfl]
      have h0 : min (j + (rest.length + 1)) ((L + 7) / 8) - j = 0 := by omega
      have hif : ¬ (j + (rest.length + 1) ≤ (L + 7) / 8) := by omega
      simp only [h0, List.range'_zero, List.map_nil, List.append_nil, hif, if_false]
      refine ⟨trivial, ?_, trivial, hp, hs, trivial⟩
      omega



/-- C8: for every buffer of length `L` with `1 ≤ L ≤ 65535` handed to
`CAN_Manager_Transmit_DTC` while no job is active, with every enqueue succeeding,
the call returns `HAL_OK`, and once the completion callbacks of all bursts but
the last have run (in any mailboxes, and however many more follow) the frames
enqueued by the job are exactly `ceil(L / 8)` frames, frame `j` being
`jobFrame _ buf L j` with `DLC = min 8 (L - 8 * j)`, which is 8 for every frame
but the last. -/
theorem CAN_Manager_Transmit_DTC_frames (buf : List Nat) (s : CanState) (mbs : List Nat)
    (hL : 1 ≤ buf.length) (h16 : buf.length ≤ 65535) (hidle : s.is_tx_in_progress = 0)
    (hcb : (buf.length + 7) / 8 - 1 ≤ mbs.length) :
    (CAN_Manager_Transmit_DTC HAL_OK (some buf) buf.length s).1 = HAL_OK
      ∧ (txCompletions (mbs.map fun m => (m, HAL_OK))
            (CAN_Manager_Transmit_DTC HAL_OK (some buf) buf.length s).2).enqueued
          = s.enqueued ++ (List.range ((buf.length + 7) / 8)).map
              (jobFrame s.tx_header_ExtId buf buf.length)
      ∧ ((List.range ((buf.length + 7) / 8)).map
              (jobFrame s.tx_header_ExtId buf buf.length)).length = (buf.length + 7) / 8
      ∧ ∀ j, j < (buf.length + 7) / 8 →
          (jobFrame s.tx_header_ExtId buf buf.length j).DLC = min 8 (buf.length - 8 * j)
            ∧ 1 ≤ (jobFrame s.tx_header_ExtId buf buf.length j).DLC
            ∧ (j + 1 < (buf.length + 7) / 8 →
                (jobFrame s.tx_header_ExtId buf buf.length j).DLC = 8) := by
  have hmod : buf.length % 65536 = buf.length := Nat.mod_eq_of_lt (by omega)
  have hT : CAN_Manager_Transmit_DTC HAL_OK (some buf) buf.length s
      = (HAL_OK, CAN_Send_Next_Frame HAL_OK
          { s with
            p_tx_data := some buf
            tx_data_size := buf.length
            tx_data_sent_count := 0
            is_tx_in_progress := 1 }) := by
    unfold CAN_Manager_Transmit_DTC
    rw [if_neg (by simp [hidle]), if_neg (by
      rw [hmod]
      rintro (h | h)
      · omega
      · cases h), hmod]
  refine ⟨by rw [hT], ?_, by simp, ?_⟩
  · rw [hT]
    simp only []
    rw [CAN_Send_Next_Frame_ok _ (by simp only []; omega) (by simp only []; omega)]
    obtain ⟨h1, -⟩ := txCompletions_job buf buf.length h16 mbs
      { s with
        p_tx_data := some buf
        tx_data_size := buf.length
        tx_data_sent_count := 0 + min 8 (buf.length - 0)
        is_tx_in_progress := 1
        tx_header_DLC := min 8 (buf.length - 0)
        enqueued := s.enqueued ++ [⟨s.tx_header_ExtId, min 8 (buf.length - 0),
          fill_tx_payload (some buf) 0 (min 8 (buf.length - 0))⟩] }
      1 rfl rfl (by show 0 + min 8 (buf.length - 0) = min (8 * 1) buf.length; omega) rfl
      (by omega)
    rw [h1]
    have hcnt : min (1 + mbs.length) ((buf.length + 7) / 8) - 1 = (buf.length + 7) / 8 - 1 := by
      omega
    have hN : (buf.length + 7) / 8 = ((buf.length + 7) / 8 - 1) + 1 := by omega
    rw [hcnt]
    conv_rhs => rw [hN, List.range_eq_range', List.range'_succ]
    simp [jobFrame]
  · intro j hj
    show min 8 (buf.length - 8 * j) = min 8 (buf.length - 8 * j)
      ∧ 1 ≤ min 8 (buf.length - 8 * j)
      ∧ (j + 1 < (buf.length + 7) / 8 → min 8 (buf.length - 8 * j) = 8)
    omega

/-- Witness for C8: a 20-byte buffer sent from the initial state, with one
completion per burst in mailboxes 0, 1, 2; the three frames have 8, 8 and 4 bytes. -/
theorem CAN_Manager_Transmit_DTC_frames_witness :
    ((txCompletions ([0, 1, 2].map fun m => (m, HAL_OK))
          (CAN_Manager_Transmit_DTC HAL_OK (some (List.range 20)) (List.range 20).length
            CanState.initial).2).enqueued.map fun f => f.DLC) = [8, 8, 4]
      ∧ (txCompletions ([0, 1, 2].map fun m => (m, HAL_OK))
          (CAN_Manager_Transmit_DTC HAL_OK (some (List.range 20)) (List.range 20).length
            CanState.initial).2).enqueued
          = CanState.initial.enqueued ++ (List.range (((List.range 20).length + 7) / 8)).map
              (jobFrame CanState.initial.tx_header_ExtId (List.range 20) (List.range 20).length) :=
  ⟨by decide,
   (CAN_Manager_Transmit_DTC_frames (List.range 20) CanState.initial [0, 1, 2]
      (by decide) (by decide) rfl (by decide)).2.1⟩

/-- C9: `CAN_Manager_Transmit_DTC` returns `HAL_BUSY` exactly when a job is active
at the call, whatever the arguments; with no job active it returns `HAL_ERROR`
exactly when `size` is 0 or the buffer pointer is `NULL`; otherwise it returns
`HAL_OK` with the job started: the buffer and the size are recorded and the
first burst is attempted, which on a successful enqueue leaves the job active
with `min 8 size` bytes sent and one frame enqueued. -/
theorem CAN_Manager_Transmit_DTC_status (add_tx : HAL_StatusTypeDef)
    (dtc_data : Option (List Nat)) (size : Nat) (s : CanState) (hsize : size < 65536) :
    ((CAN_Manager_Transmit_DTC add_tx dtc_data size s).1 = HAL_BUSY
        ↔ s.is_tx_in_progress ≠ 0)
      ∧ (s.is_tx_in_progress = 0 →
          ((CAN_Manager_Transmit_DTC add_tx dtc_data size s).1 = HAL_ERROR
            ↔ (size = 0 ∨ dtc_data = none)))
      ∧ (s.is_tx_in_progress = 0 → ¬ (size = 0 ∨ dtc_data = none) →
          (CAN_Manager_Transmit_DTC add_tx dtc_data size s).1 = HAL_OK
            ∧ (CAN_Manager_Transmit_DTC add_tx dtc_data size s).2.p_tx_data = dtc_data
            ∧ (CAN_Manager_Transmit_DTC add_tx dtc_data size s).2.tx_data_size = size
            ∧ (add_tx = HAL_OK →
                (CAN_Manager_Transmit_DTC add_tx dtc_data size s).2.is_tx_in_progress = 1
                  ∧ (CAN_Manager_Transmit_DTC add_tx dtc_data size s).2.tx_data_sent_count
                      = min 8 size
                  ∧ (CAN_Manager_Transmit_DTC add_tx dtc_data size s).2.enqueued
                      = s.enqueued ++ [⟨s.tx_header_ExtId, min 8 size,
                          fill_tx_payload dtc_data 0 (min 8 size)⟩])) := by
  have hmod : size % 65536 = size := Nat.mod_eq_of_lt hsize
  refine ⟨?_, ?_, ?_⟩
  · unfold CAN_Manager_Transmit_DTC
    by_cases hb : s.is_tx_in_progress = 0
    · rw [if_neg (by simp [hb])]
      split <;> simp [hb]
    · rw [if_pos hb]
      simp [hb]
  · intro hidle
    unfold CAN_Manager_Transmit_DTC
    rw [if_neg (by simp [hidle]), hmod]
    split
    · rename_i h; simp [h]
    · rename_i h; simp [h]
  · intro hidle hargs
    have hs0 : 0 < size := by
      rcases Nat.eq_zero_or_pos size with h | h
      · exact absurd (Or.inl h) hargs
      · exact h
    have hT : CAN_Manager_Transmit_DTC add_tx dtc_data size s
        = (HAL_OK, CAN_Send_Next_Frame add_tx
            { s with
              p_tx_data := dtc_data
              tx_data_size := size
              tx_data_sent_count := 0
              is_tx_in_progress := 1 }) := by
      unfold CAN_Manager_Transmit_DTC
      rw [if_neg (by simp [hidle]), hmod, if_neg hargs]
    rw [hT]
    refine ⟨rfl, ?_, ?_, ?_⟩
    · unfold CAN_Send_Next_Frame
      rw [if_neg (by simp only []; omega)]
      simp only []
      split <;> rfl
    · unfold CAN_Send_Next_Frame
      rw [if_neg (by simp only []; omega)]
      simp only []
      split <;> rfl
    · intro hok
      subst hok
      simp only []
      rw [CAN_Send_Next_Frame_ok _ (by simp only []; omega) (by simp only []; omega)]
      simp

/-- Witness for C9: three bytes sent from the initial state with a successful enqueue. -/
theorem CAN_Manager_Transmit_DTC_status_witness :
    (CAN_Manager_Transmit_DTC HAL_OK (some [1, 2, 3]) 3 CanState.initial).1 = HAL_OK
      ∧ (CAN_Manager_Transmit_DTC HAL_OK (some [1, 2, 3]) 3 CanState.initial).2.p_tx_data
          = some [1, 2, 3]
      ∧ (CAN_Manager_Transmit_DTC HAL_OK (some [1, 2, 3]) 3 CanState.initial).2.tx_data_size = 3
      ∧ (CAN_Manager_Transmit_DTC HAL_OK (some [1, 2, 3]) 3
            CanState.initial).2.is_tx_in_progress = 1
      ∧ (CAN_Manager_Transmit_DTC HAL_OK (some [1, 2, 3]) 3
            CanState.initial).2.tx_data_sent_count = min 8 3
      ∧ (CAN_Manager_Transmit_DTC HAL_OK (some [1, 2, 3]) 3 CanState.initial).2.enqueued
          = CanState.initial.enqueued ++ [⟨CanState.initial.tx_header_ExtId, min 8 3,
              fill_tx_payload (some [1, 2, 3]) 0 (min 8 3)⟩] :=
  have h := (CAN_Manager_Transmit_DTC_status HAL_OK (some [1, 2, 3]) 3 CanState.initial
    (by decide)).2.2 rfl (by decide)
  ⟨h.1, h.2.1, h.2.2.1, (h.2.2.2 rfl).1, (h.2.2.2 rfl).2.1, (h.2.2.2 rfl).2.2⟩

/-- C10: a `CAN_Manager_Transmit_DTC` call that returns `HAL_BUSY` or `HAL_ERROR`
returns the state it was given: buffer reference, total length, sent-byte
cursor, active flag and the list of enqueued frames are all as before the call. -/
theorem CAN_Manager_Transmit_DTC_rejected_unchanged (add_tx : HAL_StatusTypeDef)
    (dtc_data : Option (List Nat)) (size : Nat) (s : CanState)
    (hrej : (CAN_Manager_Transmit_DTC add_tx dtc_data size s).1 = HAL_BUSY
      ∨ (CAN_Manager_Transmit_DTC add_tx dtc_data size s).1 = HAL_ERROR) :
    (CAN_Manager_Transmit_DTC add_tx dtc_data size s).2 = s
      ∧ (CAN_Manager_Transmit_DTC add_tx dtc_data size s).2.p_tx_data = s.p_tx_data
      ∧ (CAN_Manager_Transmit_DTC add_tx dtc_data size s).2.tx_data_size = s.tx_data_size
      ∧ (CAN_Manager_Transmit_DTC add_tx dtc_data size s).2.tx_data_sent_count
          = s.tx_data_sent_count
      ∧ (CAN_Manager_Transmit_DTC add_tx dtc_data size s).2.is_tx_in_progress
          = s.is_tx_in_progress
      ∧ (CAN_Manager_Transmit_DTC add_tx dtc_data size s).2.enqueued = s.enqueued := by
  have h : (CAN_Manager_Transmit_DTC add_tx dtc_data size s).2 = s := by
    unfold CAN_Manager_Transmit_DTC at hrej ⊢
    split
    · rfl
    · split
      · rfl
      · rename_i h1 h2
        rw [if_neg h1, if_neg h2] at hrej
        rcases hrej with h | h <;> cases h
  rw [h]
  exact ⟨rfl, rfl, rfl, rfl, rfl, rfl⟩

/-- Witness for C10: while a 20-byte job is in flight (8 bytes sent), a second
call with another buffer is answered `HAL_BUSY` and leaves the state as it was. -/
theorem CAN_Manager_Transmit_DTC_rejected_unchanged_witness :
    (CAN_Manager_Transmit_DTC HAL_OK (some [1, 2, 3]) 3
        (CAN_Manager_Transmit_DTC HAL_OK (some (List.range 20)) 20 CanState.initial).2).1
        = HAL_BUSY
      ∧ (CAN_Manager_Transmit_DTC HAL_OK (some [1, 2, 3]) 3
          (CAN_Manager_Transmit_DTC HAL_OK (some (List.range 20)) 20 CanState.initial).2).2
        = (CAN_Manager_Transmit_DTC HAL_OK (some (List.range 20)) 20 CanState.initial).2 :=
  ⟨by decide,
   (CAN_Manager_Transmit_DTC_rejected_unchanged HAL_OK (some [1, 2, 3]) 3
      (CAN_Manager_Transmit_DTC HAL_OK (some (List.range 20)) 20 CanState.initial).2
      (Or.inl (by decide))).1⟩

/-! ## Diagnostic transport: command mailbox -/

/-- C11: for every received frame carrying `CAN_DIAG_RECEIVE_ID` (read with
`HAL_OK`) and every prior state, the mailbox after decoding is `CMD_CLEAR_DTC`
when payload byte 0 is `0x31`, `CMD_READ_DTC` when it is `0x19`, and its prior
value for every other byte; the payload bytes after byte 0 do not affect it. -/
theorem HAL_CAN_RxFifo0MsgPendingCallback_decodes (b0 : Nat) (rest : List Nat) (s : CanState) :
    (HAL_CAN_RxFifo0MsgPendingCallback HAL_OK CAN_DIAG_RECEIVE_ID (b0 :: rest) s).received_command
        = (if b0 = 0x31 then CMD_CLEAR_DTC
           else if b0 = 0x19 then CMD_READ_DTC
           else s.received_command)
      ∧ ∀ rest2 : List Nat,
          (HAL_CAN_RxFifo0MsgPendingCallback HAL_OK CAN_DIAG_RECEIVE_ID
              (b0 :: rest2) s).received_command
            = (HAL_CAN_RxFifo0MsgPendingCallback HAL_OK CAN_DIAG_RECEIVE_ID
              (b0 :: rest) s).received_command := by
  have key : ∀ r : List Nat,
      (HAL_CAN_RxFifo0MsgPendingCallback HAL_OK CAN_DIAG_RECEIVE_ID (b0 :: r) s).received_command
        = (if b0 = 0x31 then CMD_CLEAR_DTC
           else if b0 = 0x19 then CMD_READ_DTC
           else s.received_command) := by
    intro r
    simp only [HAL_CAN_RxFifo0MsgPendingCallback, Process_CAN_Response, if_true,
      List.getD_cons_zero]
    split
    · rfl
    · split <;> rfl
  exact ⟨key rest, fun rest2 => (key rest2).trans (key rest).symm⟩

/-- C12: `CAN_Manager_Get_Command` returns the mailbox value and leaves the
state as it was, so `n` consecutive calls return the same command `n` times;
`CAN_Manager_Clear_Command` sets the mailbox to `CMD_NONE` whatever it held;
the transmit path never writes the mailbox and the receive callback never
turns a pending command into `CMD_NONE`. -/
theorem CAN_Manager_Get_Command_polls (s : CanState) (n : Nat) :
    (CAN_Manager_Get_Command s).1 = s.received_command
      ∧ (CAN_Manager_Get_Command s).2 = s
      ∧ pollCommands n s = (List.replicate n s.received_command, s)
      ∧ (CAN_Manager_Get_Command (CAN_Manager_Clear_Command s)).1 = CMD_NONE
      ∧ (∀ (add_tx : HAL_StatusTypeDef) (dtc_data : Option (List Nat)) (size : Nat),
          (CAN_Manager_Transmit_DTC add_tx dtc_data size s).2.received_command
            = s.received_command)
      ∧ (∀ (mailbox : Nat) (add_tx : HAL_StatusTypeDef),
          (txCompleteCallback mailbox add_tx s).received_command = s.received_command)
      ∧ (∀ (get_rx : HAL_StatusTypeDef) (ext_id : Nat) (data : List Nat),
          (HAL_CAN_RxFifo0MsgPendingCallback get_rx ext_id data s).received_command
              = s.received_command
            ∨ (HAL_CAN_RxFifo0MsgPendingCallback get_rx ext_id data s).received_command
              ≠ CMD_NONE) := by
  have hsend : ∀ (a : HAL_StatusTypeDef) (t : CanState),
      (CAN_Send_Next_Frame a t).received_command = t.received_command := by
    intro a t
    unfold CAN_Send_Next_Frame
    split
    · rfl
    · simp only []
      split <;> rfl
  refine ⟨rfl, rfl, ?_, rfl, ?_, ?_, ?_⟩
  · induction n with
    | zero => rfl
    | succ n ih =>
      simp only [pollCommands, CAN_Manager_Get_Command, List.replicate_succ]
      rw [ih]
  · intro add_tx dtc_data size
    unfold CAN_Manager_Transmit_DTC
    split
    · rfl
    · split
      · rfl
      · exact hsend _ _
  · intro mailbox add_tx
    rw [txCompleteCallback_eq]
    split
    · exact hsend _ _
    · rfl
  · intro get_rx ext_id data
    unfold HAL_CAN_RxFifo0MsgPendingCallback
    split
    · simp only []
      split
      · unfold Process_CAN_Response
        split
        · right; simp
        · split
          · right; simp
          · left; rfl
      · left; rfl
    · left; rfl

/-! ## DTC store: persistence, clear-all and frame of Set/Clear -/

/-- C13, refuted as stated: from the all-clear mask over an all-zero device,
`DTC_Set 0` is a transition (bit 0 clear before, set after in memory), yet the
word read back from the device (here at address 0; the device is zero
everywhere) has bit 0 clear. -/
theorem DTC_Set_does_not_persist :
    DTC_IsSet 0 ⟨0, fun _ => 0⟩ = false
      ∧ DTC_IsSet 0 (DTC_Set 0 ⟨0, fun _ => 0⟩) = true
      ∧ (snapshotWord (DTC_Set 0 ⟨0, fun _ => 0⟩).eeprom 0).testBit 0 = false := by
  refine ⟨by decide, by decide, by decide⟩

/-- C13, amended: after `DTC_Set c` for a valid code `c` (whose bit was clear, or
not), the in-memory mask has bit `c` set, and the persistence device is not
written: its contents, and so the word read at any snapshot address, are what
they were before the call. -/
theorem DTC_Set_updates_memory_only (c : Nat) (s : DtcState) (hc : c < DTC_CODE_COUNT) :
    DTC_IsSet c (DTC_Set c s) = true
      ∧ (DTC_Set c s).eeprom = s.eeprom
      ∧ ∀ addr, snapshotWord (DTC_Set c s).eeprom addr = snapshotWord s.eeprom addr := by
  have hc32 : c < 32 := by unfold DTC_CODE_COUNT at hc; omega
  have he : (DTC_Set c s).eeprom = s.eeprom := by
    unfold DTC_Set
    rw [if_pos hc]
  refine ⟨?_, he, fun addr => by rw [he]⟩
  rw [DTC_IsSet_eq_testBit c _ hc]
  unfold DTC_Set
  rw [if_pos hc]
  show ((s.dtc_status_bitmask ||| (1 <<< c) % 2 ^ 32) % 2 ^ 32).testBit c = true
  rw [Nat.testBit_mod_two_pow, Nat.testBit_or, one_shiftLeft_mod c hc32,
    Nat.testBit_two_pow_self]
  simp [hc32]

/-- Witness for C13 (amended): code 0 set on the all-clear mask over an all-zero device. -/
theorem DTC_Set_updates_memory_only_witness :
    DTC_IsSet 0 (DTC_Set 0 ⟨0, fun _ => 0⟩) = true
      ∧ (DTC_Set 0 ⟨0, fun _ => 0⟩).eeprom = (⟨0, fun _ => 0⟩ : DtcState).eeprom
      ∧ ∀ addr, snapshotWord (DTC_Set 0 ⟨0, fun _ => 0⟩).eeprom addr
          = snapshotWord (⟨0, fun _ => 0⟩ : DtcState).eeprom addr :=
  DTC_Set_updates_memory_only 0 ⟨0, fun _ => 0⟩ (by decide)

/-- C14: for every prior state, after `DTC_ClearAll` the mask is zero:
`DTC_GetStatusBitmask` returns 0 and `DTC_IsSet c` is false for every code `c`;
the word persisted at the snapshot address is 0 as well. -/
theorem DTC_ClearAll_clears (snapshot_addr : Nat) (s : DtcState) :
    DTC_GetStatusBitmask (DTC_ClearAll snapshot_addr s) = 0
      ∧ (∀ c, DTC_IsSet c (DTC_ClearAll snapshot_addr s) = false)
      ∧ snapshotWord (DTC_ClearAll snapshot_addr s).eeprom snapshot_addr = 0 := by
  refine ⟨rfl, ?_, ?_⟩
  · intro c
    simp [DTC_IsSet, DTC_ClearAll]
  · simp [snapshotWord, DTC_ClearAll]

/-- C20: for every valid code `c` and every 32-bit mask `m`, `DTC_Set c` yields
`m | (1 << c)` and `DTC_Clear c` yields `m & ~(1 << c)` (32-bit complement); in
both, every bit other than bit `c` keeps its value, also at positions
`DTC_CODE_COUNT` and above, and the device contents are untouched. -/
theorem DTC_Set_Clear_touch_only_bit (c : Nat) (s : DtcState) (hc : c < DTC_CODE_COUNT)
    (hm : s.dtc_status_bitmask < 2 ^ 32) :
    (DTC_Set c s).dtc_status_bitmask = s.dtc_status_bitmask ||| (1 <<< c)
      ∧ (DTC_Clear c s).dtc_status_bitmask = s.dtc_status_bitmask &&& not32 (1 <<< c)
      ∧ (∀ i, i ≠ c →
          (DTC_Set c s).dtc_status_bitmask.testBit i = s.dtc_status_bitmask.testBit i
            ∧ (DTC_Clear c s).dtc_status_bitmask.testBit i = s.dtc_status_bitmask.testBit i)
      ∧ (DTC_Set c s).eeprom = s.eeprom ∧ (DTC_Clear c s).eeprom = s.eeprom := by
  have hc32 : c < 32 := by unfold DTC_CODE_COUNT at hc; omega
  have hpow : (2 : Nat) ^ c < 2 ^ 32 := Nat.pow_lt_pow_right (by decide) hc32
  have hset : (DTC_Set c s).dtc_status_bitmask = s.dtc_status_bitmask ||| (1 <<< c) := by
    unfold DTC_Set
    rw [if_pos hc]
    show (s.dtc_status_bitmask ||| (1 <<< c) % 2 ^ 32) % 2 ^ 32
      = s.dtc_status_bitmask ||| (1 <<< c)
    rw [one_shiftLeft_mod c hc32, Nat.one_shiftLeft]
    exact Nat.mod_eq_of_lt (Nat.or_lt_two_pow hm hpow)
  have hclr : (DTC_Clear c s).dtc_status_bitmask
      = s.dtc_status_bitmask &&& not32 (1 <<< c) := by
    unfold DTC_Clear
    rw [if_pos hc]
    show (s.dtc_status_bitmask &&& not32 (1 <<< c)) % 2 ^ 32
      = s.dtc_status_bitmask &&& not32 (1 <<< c)
    apply Nat.mod_eq_of_lt
    apply Nat.and_lt_two_pow
    unfold not32
    omega
  refine ⟨hset, hclr, ?_, ?_, ?_⟩
  · intro i hi
    rw [hset, hclr, Nat.testBit_or, Nat.testBit_and, testBit_not32, Nat.one_shiftLeft,
      Nat.testBit_two_pow]
    have hci : ¬ c = i := fun h => hi h.symm
    constructor
    · simp [hci]
    · by_cases h32 : i < 32
      · simp [hci, h32]
      · have hbig : s.dtc_status_bitmask < 2 ^ i :=
          Nat.lt_of_lt_of_le hm (Nat.pow_le_pow_right (by decide) (by omega))
        simp [Nat.testBit_lt_two_pow hbig]
  · unfold DTC_Set
    rw [if_pos hc]
  · unfold DTC_Clear
    rw [if_pos hc]

/-- Witness for C20: code 1 on the mask `0xFFFFFFF5`. -/
theorem DTC_Set_Clear_touch_only_bit_witness :
    (DTC_Set 1 ⟨0xFFFFFFF5, fun _ => 0⟩).dtc_status_bitmask = 0xFFFFFFF5 ||| (1 <<< 1)
      ∧ (DTC_Clear 1 ⟨0xFFFFFFF5, fun _ => 0⟩).dtc_status_bitmask
          = 0xFFFFFFF5 &&& not32 (1 <<< 1)
      ∧ (∀ i, i ≠ 1 →
          (DTC_Set 1 ⟨0xFFFFFFF5, fun _ => 0⟩).dtc_status_bitmask.testBit i
              = (0xFFFFFFF5 : Nat).testBit i
            ∧ (DTC_Clear 1 ⟨0xFFFFFFF5, fun _ => 0⟩).dtc_status_bitmask.testBit i
              = (0xFFFFFFF5 : Nat).testBit i)
      ∧ (DTC_Set 1 ⟨0xFFFFFFF5, fun _ => 0⟩).eeprom = (fun _ => 0)
      ∧ (DTC_Clear 1 ⟨0xFFFFFFF5, fun _ => 0⟩).eeprom = (fun _ => 0) :=
  DTC_Set_Clear_touch_only_bit 1 ⟨0xFFFFFFF5, fun _ => 0⟩ (by decide) (by decide)

/-! ## Diagnostic transport: enqueue failure -/

theorem CAN_Send_Next_Frame_fail (add_tx : HAL_StatusTypeDef) (s : CanState)
    (h : s.tx_data_sent_count < s.tx_data_size) (hfail : add_tx ≠ HAL_OK) :
    CAN_Send_Next_Frame add_tx s =
      { s with
        tx_header_DLC := (if s.tx_data_size - s.tx_data_sent_count ≥ 8 then 8
          else s.tx_data_size - s.tx_data_sent_count) % 256
        is_tx_in_progress := 0 } := by
  unfold CAN_Send_Next_Frame
  rw [if_neg (by omega)]
  simp only [hfail, if_false]

/-- C15: when `HAL_CAN_AddTxMessage` fails for a burst attempted from a
transmit-complete callback (job active, bytes pending), the job is aborted:
the active flag becomes 0, the cursor and the enqueued frames are as before
the attempt, any later run of transmit-complete callbacks changes nothing,
and a new `CAN_Manager_Transmit_DTC` call with valid arguments is accepted
with `HAL_OK`.  When the failing burst is the first one, attempted inside
`CAN_Manager_Transmit_DTC` from an idle state `s0`, that call still returns
`HAL_OK`, leaving the flag 0, the cursor 0 and no frame enqueued. -/
theorem CAN_enqueue_failure_aborts_job (s s0 : CanState) (mailbox : Nat)
    (add_tx add_tx2 : HAL_StatusTypeDef) (evs : List (Nat × HAL_StatusTypeDef))
    (buf : List Nat) (size : Nat)
    (hact : s.is_tx_in_progress ≠ 0) (hpend : s.tx_data_sent_count < s.tx_data_size)
    (hfail : add_tx ≠ HAL_OK) (hidle : s0.is_tx_in_progress = 0)
    (hsize : 0 < size) (hsize16 : size < 65536) :
    (txCompleteCallback mailbox add_tx s).is_tx_in_progress = 0
      ∧ (txCompleteCallback mailbox add_tx s).tx_data_sent_count = s.tx_data_sent_count
      ∧ (txCompleteCallback mailbox add_tx s).enqueued = s.enqueued
      ∧ txCompletions evs (txCompleteCallback mailbox add_tx s)
          = txCompleteCallback mailbox add_tx s
      ∧ (CAN_Manager_Transmit_DTC add_tx2 (some buf) size
            (txCompleteCallback mailbox add_tx s)).1 = HAL_OK
      ∧ (CAN_Manager_Transmit_DTC add_tx (some buf) size s0).1 = HAL_OK
      ∧ (CAN_Manager_Transmit_DTC add_tx (some buf) size s0).2.is_tx_in_progress = 0
      ∧ (CAN_Manager_Transmit_DTC add_tx (some buf) size s0).2.tx_data_sent_count = 0
      ∧ (CAN_Manager_Transmit_DTC add_tx (some buf) size s0).2.enqueued = s0.enqueued := by
  have hmod : size % 65536 = size := Nat.mod_eq_of_lt hsize16
  have hargs : ¬ (size = 0 ∨ (some buf : Option (List Nat)) = none) := by
    rintro (h | h)
    · omega
    · cases h
  have hcb : txCompleteCallback mailbox add_tx s
      = { s with
          tx_header_DLC := (if s.tx_data_size - s.tx_data_sent_count ≥ 8 then 8
            else s.tx_data_size - s.tx_data_sent_count) % 256
          is_tx_in_progress := 0 } := by
    rw [txCompleteCallback_eq, if_pos hact, CAN_Send_Next_Frame_fail add_tx s hpend hfail]
  have hT : ∀ (a : HAL_StatusTypeDef) (t : CanState), t.is_tx_in_progress = 0 →
      CAN_Manager_Transmit_DTC a (some buf) size t
        = (HAL_OK, CAN_Send_Next_Frame a
            { t with
              p_tx_data := some buf
              tx_data_size := size
              tx_data_sent_count := 0
              is_tx_in_progress := 1 }) := by
    intro a t ht
    unfold CAN_Manager_Transmit_DTC
    rw [if_neg (by simp [ht]), hmod, if_neg hargs]
  refine ⟨by rw [hcb], by rw [hcb], by rw [hcb], ?_, ?_, ?_, ?_, ?_, ?_⟩
  · exact txCompletions_idle evs _ (by rw [hcb])
  · rw [hT add_tx2 _ (by rw [hcb])]
  · rw [hT add_tx s0 hidle]
  · rw [hT add_tx s0 hidle, CAN_Send_Next_Frame_fail add_tx _ (by simp only []; omega) hfail]
  · rw [hT add_tx s0 hidle, CAN_Send_Next_Frame_fail add_tx _ (by simp only []; omega) hfail]
  · rw [hT add_tx s0 hidle, CAN_Send_Next_Frame_fail add_tx _ (by simp only []; omega) hfail]

/-- Witness for C15: the second burst of the 20-byte job fails with `HAL_ERROR`
in the callback of mailbox 0; two more callbacks follow; then three bytes are
sent.  The first-burst case starts from the initial state. -/
theorem CAN_enqueue_failure_aborts_job_witness :
    (txCompleteCallback 0 HAL_ERROR jobInFlight).is_tx_in_progress = 0
      ∧ (txCompleteCallback 0 HAL_ERROR jobInFlight).tx_data_sent_count
          = jobInFlight.tx_data_sent_count
      ∧ (txCompleteCallback 0 HAL_ERROR jobInFlight).enqueued = jobInFlight.enqueued
      ∧ txCompletions [(1, HAL_OK), (2, HAL_OK)] (txCompleteCallback 0 HAL_ERROR jobInFlight)
          = txCompleteCallback 0 HAL_ERROR jobInFlight
      ∧ (CAN_Manager_Transmit_DTC HAL_OK (some [1, 2, 3]) 3
            (txCompleteCallback 0 HAL_ERROR jobInFlight)).1 = HAL_OK
      ∧ (CAN_Manager_Transmit_DTC HAL_ERROR (some [1, 2, 3]) 3 CanState.initial).1 = HAL_OK
      ∧ (CAN_Manager_Transmit_DTC HAL_ERROR (some [1, 2, 3]) 3
            CanState.initial).2.is_tx_in_progress = 0
      ∧ (CAN_Manager_Transmit_DTC HAL_ERROR (some [1, 2, 3]) 3
            CanState.initial).2.tx_data_sent_count = 0
      ∧ (CAN_Manager_Transmit_DTC HAL_ERROR (some [1, 2, 3]) 3 CanState.initial).2.enqueued
          = CanState.initial.enqueued :=
  CAN_enqueue_failure_aborts_job jobInFlight CanState.initial 0 HAL_ERROR HAL_OK
    [(1, HAL_OK), (2, HAL_OK)] [1, 2, 3] 3 (by decide) (by decide) (by decide) rfl
    (by decide) (by decide)


/-! ## EEPROM driver: returned status and headers -/

theorem EEPROM_Write_DMA_loop_allOk_plan (fuel : Nat) :
    ∀ (k address size : Nat) (p_data : List Nat), size ≤ fuel →
      ∃ plan, (∀ k2, EEPROM_Write_DMA_loop SpiHal.allOk fuel k2 address p_data size
                  = some (HAL_OK, plan))
        ∧ EEPROM_Write_DMA_loop SpiHal.allOk fuel k address p_data size = some (HAL_OK, plan)
        ∧ (size = 0 → plan = []) := by
  induction fuel with
  | zero =>
    intro k address size p_data h
    have : size = 0 := by omega
    subst this
    exact ⟨[], fun _ => EEPROM_Write_DMA_loop_zero_size _ 0 _ address p_data,
      EEPROM_Write_DMA_loop_zero_size _ 0 k address p_data, fun _ => rfl⟩
  | succ fuel ih =>
    intro k address size p_data h
    rcases Nat.eq_zero_or_pos size with h0 | hs
    · subst h0
      exact ⟨[], fun _ => EEPROM_Write_DMA_loop_zero_size _ _ _ address p_data,
        EEPROM_Write_DMA_loop_zero_size _ _ k address p_data, fun _ => rfl⟩
    · obtain ⟨rest, hall, -, -⟩ := ih (k + 1) ((address + min size (64 - address % 64)) % 65536)
        (size - min size (64 - address % 64)) (p_data.drop (min size (64 - address % 64)))
        (by omega)
      refine ⟨nextBurst address p_data size :: rest, ?_, ?_, ?_⟩
      · intro k2
        rw [EEPROM_Write_DMA_loop_succ_allOk fuel k2 address size p_data hs, hall (k2 + 1)]
        rfl
      · rw [EEPROM_Write_DMA_loop_succ_allOk fuel k address size p_data hs, hall (k + 1)]
        rfl
      · intro h0; omega

theorem EEPROM_Write_DMA_loop_all_succeed (hal : SpiHal) (fuel : Nat) :
    ∀ (k address size : Nat) (p_data : List Nat) (plan : List WriteBurst),
      EEPROM_Write_DMA_loop SpiHal.allOk fuel k address p_data size = some (HAL_OK, plan) →
      (∀ i, i < plan.length →
        hal.transmit (k + i) = HAL_OK ∧ hal.transmit_dma (k + i) = HAL_OK) →
      EEPROM_Write_DMA_loop hal fuel k address p_data size = some (HAL_OK, plan) := by
  induction fuel with
  | zero =>
    intro k address size p_data plan hplan _
    rcases Nat.eq_zero_or_pos size with h0 | hs
    · subst h0
      rw [EEPROM_Write_DMA_loop_zero_size] at hplan ⊢
      exact hplan
    · simp [EEPROM_Write_DMA_loop, hs] at hplan
  | succ fuel ih =>
    intro k address size p_data plan hplan hok
    rcases Nat.eq_zero_or_pos size with h0 | hs
    · subst h0
      rw [EEPROM_Write_DMA_loop_zero_size] at hplan ⊢
      exact hplan
    · rw [EEPROM_Write_DMA_loop_succ_allOk fuel k address size p_data hs] at hplan
      cases hrec : EEPROM_Write_DMA_loop SpiHal.allOk fuel (k + 1)
          ((address + min size (64 - address % 64)) % 65536)
          (p_data.drop (min size (64 - address % 64)))
          (size - min size (64 - address % 64)) with
      | none => rw [hrec] at hplan; cases hplan
      | some r =>
        obtain ⟨st, rest⟩ := r
        rw [hrec] at hplan
        simp only [Option.map_some', Option.some.injEq, Prod.mk.injEq] at hplan
        obtain ⟨hst, hpl⟩ := hplan
        subst hst
        subst hpl
        have h0 := hok 0 (by simp)
        rw [Nat.add_zero] at h0
        rw [EEPROM_Write_DMA_loop_succ hal fuel k address size p_data hs,
          if_neg (by simp [h0.1]), if_neg (by simp [h0.2]),
          ih (k + 1) _ _ _ rest hrec (fun i hi => by
            have := hok (i + 1) (by simp; omega)
            rw [show k + 1 + i = k + (i + 1) by omega]
            exact this)]
        rfl

theorem EEPROM_Write_DMA_loop_first_failure (hal : SpiHal) (fuel : Nat) :
    ∀ (k address size : Nat) (p_data : List Nat) (plan : List WriteBurst) (j : Nat),
      EEPROM_Write_DMA_loop SpiHal.allOk fuel k address p_data size = some (HAL_OK, plan) →
      j < plan.length →
      (∀ i, i < j → hal.transmit (k + i) = HAL_OK ∧ hal.transmit_dma (k + i) = HAL_OK) →
      (hal.transmit (k + j) ≠ HAL_OK ∨ hal.transmit_dma (k + j) ≠ HAL_OK) →
      EEPROM_Write_DMA_loop hal fuel k address p_data size
        = some (HAL_ERROR, plan.take (j + 1)) := by
  induction fuel with
  | zero =>
    intro k address size p_data plan j hplan hj _ _
    rcases Nat.eq_zero_or_pos size with h0 | hs
    · subst h0
      rw [EEPROM_Write_DMA_loop_zero_size] at hplan
      cases hplan
      simp at hj
    · simp [EEPROM_Write_DMA_loop, hs] at hplan
  | succ fuel ih =>
    intro k address size p_data plan j hplan hj hok hfail
    rcases Nat.eq_zero_or_pos size with h0 | hs
    · subst h0
      rw [EEPROM_Write_DMA_loop_zero_size] at hplan
      cases hplan
      simp at hj
    · rw [EEPROM_Write_DMA_loop_succ_allOk fuel k address size p_data hs] at hplan
      cases hrec : EEPROM_Write_DMA_loop SpiHal.allOk fuel (k + 1)
          ((address + min size (64 - address % 64)) % 65536)
          (p_data.drop (min size (64 - address % 64)))
          (size - min size (64 - address % 64)) with
      | none => rw [hrec] at hplan; cases hplan
      | some r =>
        obtain ⟨st, rest⟩ := r
        rw [hrec] at hplan
        simp only [Option.map_some', Option.some.injEq, Prod.mk.injEq] at hplan
        obtain ⟨hst, hpl⟩ := hplan
        subst hst
        subst hpl
        rw [EEPROM_Write_DMA_loop_succ hal fuel k address size p_data hs]
        cases j with
        | zero =>
          rw [Nat.add_zero] at hfail
          rcases hfail with hf | hf
          · rw [if_pos hf]
            rfl
          · by_cases ht : hal.transmit k ≠ HAL_OK
            · rw [if_pos ht]
              rfl
            · rw [if_neg ht, if_pos hf]
              rfl
        | succ j =>
          have h0 := hok 0 (by omega)
          rw [Nat.add_zero] at h0
          rw [if_neg (by simp [h0.1]), if_neg (by simp [h0.2]),
            ih (k + 1) _ _ _ rest j hrec (by simpa using hj)
              (fun i hi => by
                have := hok (i + 1) (by omega)
                rw [show k + 1 + i = k + (i + 1) by omega]
                exact this)
              (by
                rw [show k + 1 + j = k + (j + 1) by omega]
                exact hfail)]
          rfl


/-- C16: let `plan` be the bursts a request is split into, i.e. those of the run
in which no HAL call fails.  `EEPROM_Write_DMA` returns `HAL_ERROR` exactly when
the header transmit or the DMA start fails for some burst of the plan, and
`HAL_OK` exactly when both succeed for every burst of the plan.  On `HAL_OK`
all bursts of the plan were started; on `HAL_ERROR` the bursts started are the
plan up to and including the first failing burst, once each, and none after
it.  With `size == 0` the plan is empty, nothing is started and the result is
`HAL_OK`. -/
theorem EEPROM_Write_DMA_status (hal : SpiHal) (address size : Nat) (p_data : List Nat) :
    ∃ plan st bursts,
      EEPROM_Write_DMA SpiHal.allOk address p_data size = some (HAL_OK, plan)
        ∧ EEPROM_Write_DMA hal address p_data size = some (st, bursts)
        ∧ (st = HAL_ERROR ↔
            ∃ k, k < plan.length ∧ (hal.transmit k ≠ HAL_OK ∨ hal.transmit_dma k ≠ HAL_OK))
        ∧ (st = HAL_OK ↔
            ∀ k, k < plan.length → hal.transmit k = HAL_OK ∧ hal.transmit_dma k = HAL_OK)
        ∧ (st = HAL_OK → bursts = plan)
        ∧ (st = HAL_ERROR →
            ∃ k, k < plan.length
              ∧ (hal.transmit k ≠ HAL_OK ∨ hal.transmit_dma k ≠ HAL_OK)
              ∧ (∀ i, i < k → hal.transmit i = HAL_OK ∧ hal.transmit_dma i = HAL_OK)
              ∧ bursts = plan.take (k + 1))
        ∧ (size % 65536 = 0 → plan = [] ∧ st = HAL_OK ∧ bursts = []) := by
  classical
  obtain ⟨plan, -, hplan, hzero⟩ := EEPROM_Write_DMA_loop_allOk_plan (size % 65536) 0
    (address % 65536) (size % 65536) p_data (Nat.le_refl _)
  by_cases hex : ∃ k, k < plan.length
      ∧ (hal.transmit k ≠ HAL_OK ∨ hal.transmit_dma k ≠ HAL_OK)
  · have hk := Nat.find_spec hex
    have hmin : ∀ i, i < Nat.find hex →
        hal.transmit i = HAL_OK ∧ hal.transmit_dma i = HAL_OK := by
      intro i hi
      have hnot := Nat.find_min hex hi
      have hil : i < plan.length := Nat.lt_trans hi hk.1
      constructor
      · by_contra h
        exact hnot ⟨hil, Or.inl h⟩
      · by_contra h
        exact hnot ⟨hil, Or.inr h⟩
    have hrun : EEPROM_Write_DMA hal address p_data size
        = some (HAL_ERROR, plan.take (Nat.find hex + 1)) := by
      unfold EEPROM_Write_DMA
      apply EEPROM_Write_DMA_loop_first_failure hal _ 0 _ _ _ plan (Nat.find hex) hplan hk.1
      · intro i hi
        rw [Nat.zero_add]
        exact hmin i hi
      · rw [Nat.zero_add]
        exact hk.2
    refine ⟨plan, HAL_ERROR, _, hplan, hrun, ?_, ?_, ?_, ?_, ?_⟩
    · exact ⟨fun _ => hex, fun _ => rfl⟩
    · constructor
      · intro h; cases h
      · intro hall
        obtain ⟨k, hkl, hkf⟩ := hex
        rcases hkf with hf | hf
        · exact absurd (hall k hkl).1 hf
        · exact absurd (hall k hkl).2 hf
    · intro h; cases h
    · intro _
      exact ⟨Nat.find hex, hk.1, hk.2, hmin, rfl⟩
    · intro hz
      have := hzero hz
      subst this
      exact absurd hk.1 (by simp)
  · have hall : ∀ k, k < plan.length →
        hal.transmit k = HAL_OK ∧ hal.transmit_dma k = HAL_OK := by
      intro k hkl
      constructor
      · by_contra h
        exact hex ⟨k, hkl, Or.inl h⟩
      · by_contra h
        exact hex ⟨k, hkl, Or.inr h⟩
    have hrun : EEPROM_Write_DMA hal address p_data size = some (HAL_OK, plan) := by
      unfold EEPROM_Write_DMA
      apply EEPROM_Write_DMA_loop_all_succeed hal _ 0 _ _ _ plan hplan
      intro i hi
      rw [Nat.zero_add]
      exact hall i hi
    refine ⟨plan, HAL_OK, plan, hplan, hrun, ?_, ?_, ?_, ?_, ?_⟩
    · constructor
      · intro h; cases h
      · intro h; exact absurd h hex
    · exact ⟨fun _ => hall, fun _ => rfl⟩
    · intro _; rfl
    · intro h; cases h
    · intro hz
      exact ⟨hzero hz, rfl, hzero hz⟩

theorem eeprom_header_bytes (cmd a : Nat) (ha : a < 65536) :
    eeprom_header cmd a = [cmd, a >>> 8, a &&& 0xFF]
      ∧ 256 * (a >>> 8) + (a &&& 0xFF) = a
      ∧ a >>> 8 < 256 ∧ a &&& 0xFF < 256 := by
  have h1 : ∀ x : Nat, x &&& 0xFF = x % 256 := fun x => Nat.and_pow_two_sub_one_eq_mod x 8
  have h2 : a >>> 8 = a / 256 := Nat.shiftRight_eq_div_pow a 8
  unfold eeprom_header
  rw [h1, h1, h2]
  have h3 : a / 256 % 256 = a / 256 := by omega
  rw [h3]
  refine ⟨rfl, ?_, ?_, ?_⟩ <;> omega

theorem EEPROM_Write_DMA_loop_bursts_shape (hal : SpiHal) (fuel : Nat) :
    ∀ (k address size : Nat) (p_data : List Nat) (r : HAL_StatusTypeDef × List WriteBurst),
      address < 65536 →
      EEPROM_Write_DMA_loop hal fuel k address p_data size = some r →
      ∀ b ∈ r.2, ∃ a p n, a < 65536 ∧ 0 < n ∧ b = nextBurst a p n := by
  induction fuel with
  | zero =>
    intro k address size p_data r _ h b hb
    rcases Nat.eq_zero_or_pos size with h0 | hs
    · subst h0
      rw [EEPROM_Write_DMA_loop_zero_size] at h
      cases h
      simp at hb
    · simp [EEPROM_Write_DMA_loop, hs] at h
  | succ fuel ih =>
    intro k address size p_data r ha h b hb
    rcases Nat.eq_zero_or_pos size with h0 | hs
    · subst h0
      rw [EEPROM_Write_DMA_loop_zero_size] at h
      cases h
      simp at hb
    · rw [EEPROM_Write_DMA_loop_succ hal fuel k address size p_data hs] at h
      split at h
      · cases h
        simp only [List.mem_singleton] at hb
        exact ⟨address, p_data, size, ha, hs, hb⟩
      · split at h
        · cases h
          simp only [List.mem_singleton] at hb
          exact ⟨address, p_data, size, ha, hs, hb⟩
        · cases hrec : EEPROM_Write_DMA_loop hal fuel (k + 1)
              ((address + min size (64 - address % 64)) % 65536)
              (p_data.drop (min size (64 - address % 64)))
              (size - min size (64 - address % 64)) with
          | none => rw [hrec] at h; cases h
          | some r1 =>
            rw [hrec] at h
            cases h
            rcases List.mem_cons.mp hb with hb1 | hb2
            · exact ⟨address, p_data, size, ha, hs, hb1⟩
            · exact ih _ _ _ _ r1 (Nat.mod_lt _ (by decide)) hrec b hb2

/-- C17: for every 16-bit address `a`, the header sent by `EEPROM_Read_DMA` is
`[0x03, a >> 8, a & 0xFF]`, and every burst started by `EEPROM_Write_DMA` at burst
address `b.address` has the header `[0x02, b.address >> 8, b.address & 0xFF]`;
in both the address is big-endian: `256 * header[1] + header[2]` is the address. -/
theorem EEPROM_headers_big_endian (tx rx : HAL_StatusTypeDef) (hal : SpiHal)
    (a address size : Nat) (p_data : List Nat) (ha : a < 65536) :
    (EEPROM_Read_DMA tx rx a).2 = [0x03, a >>> 8, a &&& 0xFF]
      ∧ 256 * (EEPROM_Read_DMA tx rx a).2.getD 1 0 + (EEPROM_Read_DMA tx rx a).2.getD 2 0 = a
      ∧ ∃ st bursts, EEPROM_Write_DMA hal address p_data size = some (st, bursts)
          ∧ ∀ b ∈ bursts, b.address < 65536
              ∧ b.header = [0x02, b.address >>> 8, b.address &&& 0xFF]
              ∧ 256 * b.header.getD 1 0 + b.header.getD 2 0 = b.address := by
  have hmod : a % 65536 = a := Nat.mod_eq_of_lt ha
  have hread : (EEPROM_Read_DMA tx rx a).2 = eeprom_header EEPROM_CMD_READ a := by
    unfold EEPROM_Read_DMA
    rw [hmod]
    simp only []
    split
    · rfl
    · split <;> rfl
  obtain ⟨hh, hbe, -, -⟩ := eeprom_header_bytes EEPROM_CMD_READ a ha
  refine ⟨by rw [hread, hh]; rfl, by rw [hread, hh]; exact hbe, ?_⟩
  obtain ⟨r, hr⟩ := EEPROM_Write_DMA_loop_isSome hal (size % 65536) 0 (address % 65536)
    (size % 65536) p_data (Nat.le_refl _)
  refine ⟨r.1, r.2, hr, ?_⟩
  intro b hb
  obtain ⟨a2, p2, n2, ha2, -, hbeq⟩ := EEPROM_Write_DMA_loop_bursts_shape hal _ _ _ _ _ r
    (Nat.mod_lt _ (by decide)) hr b hb
  obtain ⟨hh2, hbe2, -, -⟩ := eeprom_header_bytes EEPROM_CMD_WRITE a2 ha2
  subst hbeq
  refine ⟨ha2, ?_, ?_⟩
  · show eeprom_header EEPROM_CMD_WRITE a2 = _
    rw [hh2]; rfl
  · show 256 * (eeprom_header EEPROM_CMD_WRITE a2).getD 1 0
      + (eeprom_header EEPROM_CMD_WRITE a2).getD 2 0 = a2
    rw [hh2]; exact hbe2

/-- Witness for C17: a read at `0x1234`, and 74 bytes written at address 59. -/
theorem EEPROM_headers_big_endian_witness :
    (EEPROM_Read_DMA HAL_OK HAL_OK 0x1234).2 = [0x03, 0x1234 >>> 8, 0x1234 &&& 0xFF]
      ∧ 256 * (EEPROM_Read_DMA HAL_OK HAL_OK 0x1234).2.getD 1 0
          + (EEPROM_Read_DMA HAL_OK HAL_OK 0x1234).2.getD 2 0 = 0x1234
      ∧ ∃ st bursts, EEPROM_Write_DMA SpiHal.allOk 59 (List.replicate 74 0xAB) 74
            = some (st, bursts)
          ∧ ∀ b ∈ bursts, b.address < 65536
              ∧ b.header = [0x02, b.address >>> 8, b.address &&& 0xFF]
              ∧ 256 * b.header.getD 1 0 + b.header.getD 2 0 = b.address :=
  EEPROM_headers_big_endian HAL_OK HAL_OK SpiHal.allOk 0x1234 59 74 (List.replicate 74 0xAB)
    (by decide)


/-! ## Diagnostic transport: payload and job lifetime -/

theorem foldl_set_range (f : Nat → Nat) (n : Nat) (l : List Nat) :
    (List.range n).foldl (fun acc i => acc.set i (f i)) l
      = (List.range l.length).map (fun i => if i < n then f i else l.getD i 0) := by
  induction n with
  | zero =>
    apply List.ext_getElem
    · simp
    · intro i h1 h2
      have hi : i < l.length := by simpa using h1
      simp [List.getElem?_eq_getElem hi]
  | succ n ih =>
    rw [List.range_succ, List.foldl_append, ih]
    apply List.ext_getElem
    · simp
    · intro i h1 h2
      have hi : i < l.length := by simpa using h2
      simp only [List.foldl_cons, List.foldl_nil, List.getElem_set, List.getElem_map,
        List.getElem_range]
      by_cases hni : n = i
      · subst hni
        simp
      · rw [if_neg hni]
        by_cases hlt : i < n
        · have : i < n + 1 := by omega
          simp [hlt, this]
        · have : ¬ i < n + 1 := by omega
          simp [hlt, this]

theorem fill_tx_payload_eq (buf : List Nat) (c n : Nat) (hn : n ≤ 8)
    (hc : c + n ≤ buf.length) :
    fill_tx_payload (some buf) c n = (buf.drop c).take n ++ List.replicate (8 - n) 0 := by
  unfold fill_tx_payload
  rw [foldl_set_range (fun i => tx_byte (some buf) (c + i)) n (List.replicate 8 0)]
  have hlen : ((buf.drop c).take n).length = n := by
    rw [List.length_take, List.length_drop]; omega
  apply List.ext_getElem
  · simp only [List.length_map, List.length_range, List.length_replicate, List.length_append,
      hlen]
    omega
  · intro i h1 h2
    simp only [List.getElem_map, List.getElem_range, List.length_replicate]
    by_cases hi : i < n
    · rw [if_pos hi, List.getElem_append_left (by rw [hlen]; exact hi), List.getElem_take,
        List.getElem_drop]
      simp only [tx_byte]
      exact List.getD_eq_getElem buf 0 (by omega)
    · have hi8 : i < 8 := by simpa using h1
      rw [if_neg hi, List.getElem_append_right (by rw [hlen]; omega),
        List.getElem_replicate,
        List.getD_eq_getElem _ 0 (show i < (List.replicate 8 0).length by
          rw [List.length_replicate]; exact hi8),
        List.getElem_replicate]

theorem chunks_flatten (buf : List Nat) (N : Nat) :
    ((List.range N).map fun j => (buf.drop (8 * j)).take (min 8 (buf.length - 8 * j))).flatten
      = buf.take (min (8 * N) buf.length) := by
  induction N with
  | zero => simp
  | succ N ih =>
    rw [List.range_succ, List.map_append, List.flatten_append, ih]
    simp only [List.map_cons, List.map_nil, List.flatten_cons, List.flatten_nil,
      List.append_nil]
    rcases Nat.le_total (8 * N) buf.length with hle | hge
    · have h1 : min (8 * N) buf.length = 8 * N := by omega
      have h2 : min (8 * (N + 1)) buf.length = 8 * N + min 8 (buf.length - 8 * N) := by omega
      rw [h1, h2, List.take_add]
    · have h1 : min (8 * N) buf.length = buf.length := by omega
      have h2 : min (8 * (N + 1)) buf.length = buf.length := by omega
      have h3 : min 8 (buf.length - 8 * N) = 0 := by omega
      rw [h1, h2, h3]
      simp

theorem transmit_then_completions (buf : List Nat) (s : CanState) (mbs : List Nat)
    (hL : 1 ≤ buf.length) (h16 : buf.length ≤ 65535) (hidle : s.is_tx_in_progress = 0) :
    (CAN_Manager_Transmit_DTC HAL_OK (some buf) buf.length s).1 = HAL_OK
      ∧ (txCompletions (mbs.map fun m => (m, HAL_OK))
            (CAN_Manager_Transmit_DTC HAL_OK (some buf) buf.length s).2).enqueued
          = s.enqueued ++ (List.range (min (mbs.length + 1) ((buf.length + 7) / 8))).map
              (jobFrame s.tx_header_ExtId buf buf.length)
      ∧ (txCompletions (mbs.map fun m => (m, HAL_OK))
            (CAN_Manager_Transmit_DTC HAL_OK (some buf) buf.length s).2).tx_data_sent_count
          = min (8 * (mbs.length + 1)) buf.length
      ∧ (txCompletions (mbs.map fun m => (m, HAL_OK))
            (CAN_Manager_Transmit_DTC HAL_OK (some buf) buf.length s).2).is_tx_in_progress
          = (if mbs.length < (buf.length + 7) / 8 then 1 else 0) := by
  have hmod : buf.length % 65536 = buf.length := Nat.mod_eq_of_lt (by omega)
  have hT : CAN_Manager_Transmit_DTC HAL_OK (some buf) buf.length s
      = (HAL_OK, CAN_Send_Next_Frame HAL_OK
          { s with
            p_tx_data := some buf
            tx_data_size := buf.length
            tx_data_sent_count := 0
            is_tx_in_progress := 1 }) := by
    unfold CAN_Manager_Transmit_DTC
    rw [if_neg (by simp [hidle]), if_neg (by
      rw [hmod]
      rintro (h | h)
      · omega
      · cases h), hmod]
  rw [hT]
  simp only []
  rw [CAN_Send_Next_Frame_ok _ (by simp only []; omega) (by simp only []; omega)]
  obtain ⟨h1, h2, h3, -⟩ := txCompletions_job buf buf.length h16 mbs
    { s with
      p_tx_data := some buf
      tx_data_size := buf.length
      tx_data_sent_count := 0 + min 8 (buf.length - 0)
      is_tx_in_progress := 1
      tx_header_DLC := min 8 (buf.length - 0)
      enqueued := s.enqueued ++ [⟨s.tx_header_ExtId, min 8 (buf.length - 0),
        fill_tx_payload (some buf) 0 (min 8 (buf.length - 0))⟩] }
    1 rfl rfl (by show 0 + min 8 (buf.length - 0) = min (8 * 1) buf.length; omega) rfl
    (by omega)
  refine ⟨trivial, ?_, ?_, ?_⟩
  · rw [h1]
    have hN : min (mbs.length + 1) ((buf.length + 7) / 8)
        = (min (1 + mbs.length) ((buf.length + 7) / 8) - 1) + 1 := by omega
    conv_rhs => rw [hN, List.range_eq_range', List.range'_succ]
    simp [jobFrame]
  · rw [h2]; congr 1; omega
  · rw [h3]
    by_cases h : mbs.length < (buf.length + 7) / 8
    · rw [if_pos h, if_pos (by omega)]
    · rw [if_neg h, if_neg (by omega)]


/-- C18: for a job over a buffer `buf` of length `L` (`1 ≤ L ≤ 65535`) started while
idle with every enqueue succeeding, once the completions of all bursts but the
last have run, the frames enqueued by the job are frame `j = 0 .. ceil(L/8) - 1`
with `DLC = min 8 (L - 8 * j)` and payload the bytes `buf[8j ..]` in the first
`DLC` positions followed by zeros; the `DLC`-long payload prefixes of the
enqueued frames, concatenated in enqueue order, are exactly `buf`. -/
theorem CAN_job_frames_carry_buffer (buf : List Nat) (s : CanState) (mbs : List Nat)
    (hL : 1 ≤ buf.length) (h16 : buf.length ≤ 65535) (hidle : s.is_tx_in_progress = 0)
    (hcb : (buf.length + 7) / 8 - 1 ≤ mbs.length) :
    (txCompletions (mbs.map fun m => (m, HAL_OK))
          (CAN_Manager_Transmit_DTC HAL_OK (some buf) buf.length s).2).enqueued
        = s.enqueued ++ (List.range ((buf.length + 7) / 8)).map (fun j =>
            (⟨s.tx_header_ExtId, min 8 (buf.length - 8 * j),
              (buf.drop (8 * j)).take (min 8 (buf.length - 8 * j))
                ++ List.replicate (8 - min 8 (buf.length - 8 * j)) 0⟩ : CanFrame))
      ∧ (((txCompletions (mbs.map fun m => (m, HAL_OK))
            (CAN_Manager_Transmit_DTC HAL_OK (some buf) buf.length s).2).enqueued.drop
              s.enqueued.length).map fun f => f.payload.take f.DLC).flatten = buf := by
  obtain ⟨-, henq, -, -⟩ := transmit_then_completions buf s mbs hL h16 hidle
  have hmin : min (mbs.length + 1) ((buf.length + 7) / 8) = (buf.length + 7) / 8 := by omega
  rw [hmin] at henq
  have hframes : (List.range ((buf.length + 7) / 8)).map
        (jobFrame s.tx_header_ExtId buf buf.length)
      = (List.range ((buf.length + 7) / 8)).map (fun j =>
          (⟨s.tx_header_ExtId, min 8 (buf.length - 8 * j),
            (buf.drop (8 * j)).take (min 8 (buf.length - 8 * j))
              ++ List.replicate (8 - min 8 (buf.length - 8 * j)) 0⟩ : CanFrame)) := by
    apply List.map_congr_left
    intro j hj
    have hjN : j < (buf.length + 7) / 8 := List.mem_range.mp hj
    unfold jobFrame
    rw [fill_tx_payload_eq buf (8 * j) (min 8 (buf.length - 8 * j)) (by omega) (by omega)]
  rw [henq, hframes]
  refine ⟨rfl, ?_⟩
  rw [List.drop_left' rfl, List.map_map]
  have hfun : (List.range ((buf.length + 7) / 8)).map
        ((fun f : CanFrame => f.payload.take f.DLC) ∘ fun j =>
          (⟨s.tx_header_ExtId, min 8 (buf.length - 8 * j),
            (buf.drop (8 * j)).take (min 8 (buf.length - 8 * j))
              ++ List.replicate (8 - min 8 (buf.length - 8 * j)) 0⟩ : CanFrame))
      = (List.range ((buf.length + 7) / 8)).map
          (fun j => (buf.drop (8 * j)).take (min 8 (buf.length - 8 * j))) := by
    apply List.map_congr_left
    intro j _
    simp only [Function.comp_apply]
    apply List.take_left'
    rw [List.length_take, List.length_drop]
    omega
  rw [hfun, chunks_flatten]
  have hall : min (8 * ((buf.length + 7) / 8)) buf.length = buf.length := by omega
  rw [hall, List.take_length]

/-- Witness for C18: the 20-byte buffer `0 .. 19` sent from the initial state
with completions in mailboxes 0, 1, 2. -/
theorem CAN_job_frames_carry_buffer_witness :
    (txCompletions ([0, 1, 2].map fun m => (m, HAL_OK))
          (CAN_Manager_Transmit_DTC HAL_OK (some (List.range 20)) (List.range 20).length
            CanState.initial).2).enqueued
        = CanState.initial.enqueued ++ (List.range (((List.range 20).length + 7) / 8)).map
            (fun j =>
              (⟨CanState.initial.tx_header_ExtId, min 8 ((List.range 20).length - 8 * j),
                ((List.range 20).drop (8 * j)).take (min 8 ((List.range 20).length - 8 * j))
                  ++ List.replicate (8 - min 8 ((List.range 20).length - 8 * j)) 0⟩ : CanFrame))
      ∧ (((txCompletions ([0, 1, 2].map fun m => (m, HAL_OK))
            (CAN_Manager_Transmit_DTC HAL_OK (some (List.range 20)) (List.range 20).length
              CanState.initial).2).enqueued.drop
              CanState.initial.enqueued.length).map fun f => f.payload.take f.DLC).flatten
          = List.range 20 :=
  CAN_job_frames_carry_buffer (List.range 20) CanState.initial [0, 1, 2]
    (by decide) (by decide) rfl (by decide)

theorem CAN_Manager_Transmit_DTC_busy_iff (add_tx : HAL_StatusTypeDef)
    (dtc_data : Option (List Nat)) (size : Nat) (t : CanState) :
    (CAN_Manager_Transmit_DTC add_tx dtc_data size t).1 = HAL_BUSY
      ↔ t.is_tx_in_progress ≠ 0 := by
  unfold CAN_Manager_Transmit_DTC
  by_cases hb : t.is_tx_in_progress = 0
  · rw [if_neg (by simp [hb])]
    split <;> simp [hb]
  · rw [if_pos hb]
    simp [hb]

/-- C19: a job of length `L` (`1 ≤ L ≤ 65535`) started by `CAN_Manager_Transmit_DTC`
while idle, with every enqueue succeeding, is active after `n` transmit-complete
callbacks exactly when `n < ceil(L/8)`, and exactly then a further
`CAN_Manager_Transmit_DTC` call (any arguments) returns `HAL_BUSY`.  The cursor
after `n` callbacks is `min (8 * (n + 1)) L`: after `ceil(L/8) - 1` callbacks the
last burst is enqueued and the cursor equals `L` with the flag still 1; the
flag is 0 from callback `ceil(L/8)` on. -/
theorem CAN_job_active_until_last_ack (buf : List Nat) (s : CanState) (mbs : List Nat)
    (add_tx : HAL_StatusTypeDef) (dtc_data : Option (List Nat)) (size : Nat)
    (hL : 1 ≤ buf.length) (h16 : buf.length ≤ 65535) (hidle : s.is_tx_in_progress = 0) :
    (txCompletions (mbs.map fun m => (m, HAL_OK))
          (CAN_Manager_Transmit_DTC HAL_OK (some buf) buf.length s).2).is_tx_in_progress
        = (if mbs.length < (buf.length + 7) / 8 then 1 else 0)
      ∧ ((CAN_Manager_Transmit_DTC add_tx dtc_data size
            (txCompletions (mbs.map fun m => (m, HAL_OK))
              (CAN_Manager_Transmit_DTC HAL_OK (some buf) buf.length s).2)).1 = HAL_BUSY
          ↔ mbs.length < (buf.length + 7) / 8)
      ∧ (txCompletions (mbs.map fun m => (m, HAL_OK))
          (CAN_Manager_Transmit_DTC HAL_OK (some buf) buf.length s).2).tx_data_sent_count
        = min (8 * (mbs.length + 1)) buf.length
      ∧ (mbs.length + 1 = (buf.length + 7) / 8 →
          (txCompletions (mbs.map fun m => (m, HAL_OK))
              (CAN_Manager_Transmit_DTC HAL_OK (some buf) buf.length s).2).tx_data_sent_count
            = buf.length
          ∧ (txCompletions (mbs.map fun m => (m, HAL_OK))
              (CAN_Manager_Transmit_DTC HAL_OK (some buf) buf.length s).2).is_tx_in_progress
            = 1)
      ∧ ((buf.length + 7) / 8 ≤ mbs.length →
          (txCompletions (mbs.map fun m => (m, HAL_OK))
              (CAN_Manager_Transmit_DTC HAL_OK (some buf) buf.length s).2).is_tx_in_progress
            = 0) := by
  obtain ⟨-, -, hsent, hflag⟩ := transmit_then_completions buf s mbs hL h16 hidle
  refine ⟨hflag, ?_, hsent, ?_, ?_⟩
  · rw [CAN_Manager_Transmit_DTC_busy_iff, hflag]
    by_cases h : mbs.length < (buf.length + 7) / 8
    · simp [h]
    · simp [h]
  · intro h
    rw [hsent, hflag, if_pos (by omega)]
    exact ⟨by omega, rfl⟩
  · intro h
    rw [hflag, if_neg (by omega)]

/-- Witness for C19: the 20-byte job after two callbacks: the third (last) burst is
enqueued, the cursor is 20 and the job is still active. -/
theorem CAN_job_active_until_last_ack_witness :
    (txCompletions ([0, 1].map fun m => (m, HAL_OK))
        (CAN_Manager_Transmit_DTC HAL_OK (some (List.range 20)) (List.range 20).length
          CanState.initial).2).tx_data_sent_count = (List.range 20).length
      ∧ (txCompletions ([0, 1].map fun m => (m, HAL_OK))
        (CAN_Manager_Transmit_DTC HAL_OK (some (List.range 20)) (List.range 20).length
          CanState.initial).2).is_tx_in_progress = 1 :=
  (CAN_job_active_until_last_ack (List.range 20) CanState.initial [0, 1] HAL_OK none 0
    (by decide) (by decide) rfl).2.2.2.1 (by decide)

/-! ## Diagnostic transport: the cursor never passes the job length -/

theorem CAN_Send_Next_Frame_cursor_le (add_tx : HAL_StatusTypeDef) (s : CanState)
    (h : s.tx_data_sent_count ≤ s.tx_data_size) :
    (CAN_Send_Next_Frame add_tx s).tx_data_sent_count
        ≤ (CAN_Send_Next_Frame add_tx s).tx_data_size
      ∧ (CAN_Send_Next_Frame add_tx s).tx_data_size = s.tx_data_size
      ∧ (CAN_Send_Next_Frame add_tx s).p_tx_data = s.p_tx_data := by
  unfold CAN_Send_Next_Frame
  split
  · exact ⟨h, rfl, rfl⟩
  · simp only []
    split
    · refine ⟨?_, rfl, rfl⟩
      show (s.tx_data_sent_count
          + (if s.tx_data_size - s.tx_data_sent_count ≥ 8 then 8
              else s.tx_data_size - s.tx_data_sent_count) % 256) % 65536 ≤ s.tx_data_size
      have hle : (s.tx_data_sent_count
          + (if s.tx_data_size - s.tx_data_sent_count ≥ 8 then 8
              else s.tx_data_size - s.tx_data_sent_count) % 256) % 65536
          ≤ s.tx_data_sent_count
          + (if s.tx_data_size - s.tx_data_sent_count ≥ 8 then 8
              else s.tx_data_size - s.tx_data_sent_count) % 256 := Nat.mod_le _ _
      have hb : (if s.tx_data_size - s.tx_data_sent_count ≥ 8 then 8
              else s.tx_data_size - s.tx_data_sent_count) % 256
          ≤ s.tx_data_size - s.tx_data_sent_count := by
        split <;> omega
      omega
    · exact ⟨h, rfl, rfl⟩

/-- The invariant carried along a run: the cursor is at most the job length,
and the job length is at most the length of the buffer `p_tx_data` points at. -/
theorem CanEvent_step_invariant (e : CanEvent) (s : CanState)
    (h : s.tx_data_sent_count ≤ s.tx_data_size) :
    (e.step s).tx_data_sent_count ≤ (e.step s).tx_data_size
      ∧ (e.sizeWithinBuffer →
          (∀ buf, s.p_tx_data = some buf → s.tx_data_size ≤ buf.length) →
          ∀ buf, (e.step s).p_tx_data = some buf → (e.step s).tx_data_size ≤ buf.length) := by
  cases e with
  | transmit add_tx dtc_data size =>
    simp only [CanEvent.step]
    unfold CAN_Manager_Transmit_DTC
    split
    · exact ⟨h, fun _ hb => hb⟩
    · split
      · exact ⟨h, fun _ hb => hb⟩
      · rename_i h1 h2
        obtain ⟨hc, hsz, hp⟩ := CAN_Send_Next_Frame_cursor_le add_tx
          { s with
            p_tx_data := dtc_data
            tx_data_size := size % 65536
            tx_data_sent_count := 0
            is_tx_in_progress := 1 } (Nat.zero_le _)
        refine ⟨hc, ?_⟩
        intro hwf _ buf hbuf
        simp only [] at hbuf ⊢
        rw [hp] at hbuf
        rw [hsz]
        simp only [] at hbuf ⊢
        subst hbuf
        exact hwf
  | txComplete mailbox add_tx =>
    simp only [CanEvent.step]
    rw [txCompleteCallback_eq]
    split
    · obtain ⟨hc, hsz, hp⟩ := CAN_Send_Next_Frame_cursor_le add_tx s h
      refine ⟨hc, ?_⟩
      intro _ hb buf hbuf
      rw [hp] at hbuf
      rw [hsz]
      exact hb buf hbuf
    · exact ⟨h, fun _ hb => hb⟩
  | rxPending get_rx ext_id data =>
    have hsame : (HAL_CAN_RxFifo0MsgPendingCallback get_rx ext_id data s).tx_data_sent_count
          = s.tx_data_sent_count
        ∧ (HAL_CAN_RxFifo0MsgPendingCallback get_rx ext_id data s).tx_data_size
          = s.tx_data_size
        ∧ (HAL_CAN_RxFifo0MsgPendingCallback get_rx ext_id data s).p_tx_data
          = s.p_tx_data := by
      unfold HAL_CAN_RxFifo0MsgPendingCallback
      split
      · simp only []
        split
        · unfold Process_CAN_Response
          split
          · exact ⟨rfl, rfl, rfl⟩
          · split <;> exact ⟨rfl, rfl, rfl⟩
        · exact ⟨rfl, rfl, rfl⟩
      · exact ⟨rfl, rfl, rfl⟩
    simp only [CanEvent.step]
    obtain ⟨h1, h2, h3⟩ := hsame
    rw [h1, h2, h3]
    exact ⟨h, fun _ hb => hb⟩
  | clearCommand =>
    exact ⟨h, fun _ hb => hb⟩

theorem runEvents_invariant (evs : List CanEvent) :
    ∀ s : CanState, s.tx_data_sent_count ≤ s.tx_data_size →
      (runEvents evs s).tx_data_sent_count ≤ (runEvents evs s).tx_data_size
        ∧ ((∀ e ∈ evs, e.sizeWithinBuffer) →
            (∀ buf, s.p_tx_data = some buf → s.tx_data_size ≤ buf.length) →
            ∀ buf, (runEvents evs s).p_tx_data = some buf →
              (runEvents evs s).tx_data_size ≤ buf.length) := by
  induction evs with
  | nil =>
    intro s h
    exact ⟨h, fun _ hb => hb⟩
  | cons e rest ih =>
    intro s h
    obtain ⟨h1, h2⟩ := CanEvent_step_invariant e s h
    obtain ⟨h3, h4⟩ := ih (e.step s) h1
    refine ⟨h3, ?_⟩
    intro hwf hb
    exact h4 (fun e' he' => hwf e' (List.mem_cons_of_mem _ he'))
      (h2 (hwf e (List.mem_cons_self _ _)) hb)

/-- C21: in every state reached from the initial state by any sequence of
`CAN_Manager_Transmit_DTC` calls, transmit-complete callbacks (and receive
callbacks and mailbox clears), whatever `HAL_CAN_AddTxMessage` returns each
time, `tx_data_sent_count ≤ tx_data_size`.  Every index at which
`CAN_Send_Next_Frame` reads `p_tx_data` is below `tx_data_size` (in any state),
and when every transmit call passed a `size` within its buffer, `tx_data_size`
is within the buffer `p_tx_data` points at, so no burst reads at or past the
end of the buffer. -/
theorem CAN_cursor_never_exceeds_size (evs : List CanEvent) :
    (runEvents evs CanState.initial).tx_data_sent_count
        ≤ (runEvents evs CanState.initial).tx_data_size
      ∧ (∀ (t : CanState) (idx : Nat), idx ∈ tx_read_indices t → idx < t.tx_data_size)
      ∧ ((∀ e ∈ evs, e.sizeWithinBuffer) →
          ∀ buf, (runEvents evs CanState.initial).p_tx_data = some buf →
            (runEvents evs CanState.initial).tx_data_size ≤ buf.length
              ∧ ∀ idx ∈ tx_read_indices (runEvents evs CanState.initial),
                  idx < buf.length) := by
  have hreads : ∀ (t : CanState) (idx : Nat), idx ∈ tx_read_indices t →
      idx < t.tx_data_size := by
    intro t idx hidx
    unfold tx_read_indices at hidx
    split at hidx
    · simp at hidx
    · rename_i hlt
      obtain ⟨i, hi, rfl⟩ := List.mem_map.mp hidx
      have hi' := List.mem_range.mp hi
      have hb : (if t.tx_data_size - t.tx_data_sent_count ≥ 8 then 8
              else t.tx_data_size - t.tx_data_sent_count) % 256
          ≤ t.tx_data_size - t.tx_data_sent_count := by
        split <;> omega
      omega
  obtain ⟨h1, h2⟩ := runEvents_invariant evs CanState.initial (Nat.le_refl _)
  refine ⟨h1, hreads, ?_⟩
  intro hwf buf hbuf
  have hsz := h2 hwf (fun b hb => by cases hb) buf hbuf
  exact ⟨hsz, fun idx hidx => Nat.lt_of_lt_of_le (hreads _ idx hidx) hsz⟩


/-! ## EEPROM driver: termination of the splitting loop -/

theorem EEPROM_Write_DMA_loop_extra_fuel (hal : SpiHal) (fuel : Nat) :
    ∀ (extra k address size : Nat) (p_data : List Nat), size ≤ fuel →
      EEPROM_Write_DMA_loop hal (fuel + extra) k address p_data size
        = EEPROM_Write_DMA_loop hal fuel k address p_data size := by
  induction fuel with
  | zero =>
    intro extra k address size p_data h
    have : size = 0 := by omega
    subst this
    rw [EEPROM_Write_DMA_loop_zero_size, EEPROM_Write_DMA_loop_zero_size]
  | succ fuel ih =>
    intro extra k address size p_data h
    rcases Nat.eq_zero_or_pos size with h0 | hs
    · subst h0
      rw [EEPROM_Write_DMA_loop_zero_size, EEPROM_Write_DMA_loop_zero_size]
    · rw [show fuel + 1 + extra = (fuel + extra) + 1 by omega,
        EEPROM_Write_DMA_loop_succ hal (fuel + extra) k address size p_data hs,
        EEPROM_Write_DMA_loop_succ hal fuel k address size p_data hs,
        ih extra (k + 1) _ (size - min size (64 - address % 64)) _ (by omega)]

theorem EEPROM_Write_DMA_loop_iterations (hal : SpiHal) (fuel : Nat) :
    ∀ (k address size : Nat) (p_data : List Nat) (r : HAL_StatusTypeDef × List WriteBurst),
      EEPROM_Write_DMA_loop hal fuel k address p_data size = some r →
      r.2.length ≤ (r.2.map fun b => b.len).sum ∧ (r.2.map fun b => b.len).sum ≤ size := by
  induction fuel with
  | zero =>
    intro k address size p_data r h
    rcases Nat.eq_zero_or_pos size with h0 | hs
    · subst h0
      rw [EEPROM_Write_DMA_loop_zero_size] at h
      cases h
      simp
    · simp [EEPROM_Write_DMA_loop, hs] at h
  | succ fuel ih =>
    intro k address size p_data r h
    rcases Nat.eq_zero_or_pos size with h0 | hs
    · subst h0
      rw [EEPROM_Write_DMA_loop_zero_size] at h
      cases h
      simp
    · have hlen : 1 ≤ (nextBurst address p_data size).len
          ∧ (nextBurst address p_data size).len ≤ size := by
        simp only [nextBurst]
        omega
      have hlen2 : (nextBurst address p_data size).len = min size (64 - address % 64) := rfl
      rw [EEPROM_Write_DMA_loop_succ hal fuel k address size p_data hs] at h
      split at h
      · cases h
        simp only [List.length_singleton, List.map_cons, List.map_nil, List.sum_cons,
          List.sum_nil, Nat.add_zero]
        exact hlen
      · split at h
        · cases h
          simp only [List.length_singleton, List.map_cons, List.map_nil, List.sum_cons,
            List.sum_nil, Nat.add_zero]
          exact hlen
        · cases hrec : EEPROM_Write_DMA_loop hal fuel (k + 1)
              ((address + min size (64 - address % 64)) % 65536)
              (p_data.drop (min size (64 - address % 64)))
              (size - min size (64 - address % 64)) with
          | none => rw [hrec] at h; cases h
          | some r1 =>
            rw [hrec] at h
            cases h
            obtain ⟨h1, h2⟩ := ih _ _ _ _ r1 hrec
            simp only [List.length_cons, List.map_cons, List.sum_cons]
            omega

/-- C22: for every address and size (converted to 16 bits on entry), every
buffer and any results of the HAL calls, the splitting loop of
`EEPROM_Write_DMA` ends: with `size` iterations allowed it returns a status,
more iterations allowed change nothing, and the loop was entered at most
`size` times (one logged burst per iteration).  Every iteration writes at least
one byte, so the remaining size strictly decreases, at any address including
those where `address + bytes_to_write` wraps past `0xFFFF`; the bytes of all
bursts together are at most `size`. -/
theorem EEPROM_Write_DMA_terminates (hal : SpiHal) (address size : Nat) (p_data : List Nat) :
    ∃ st bursts, EEPROM_Write_DMA hal address p_data size = some (st, bursts)
      ∧ (∀ extra, EEPROM_Write_DMA_loop hal (size % 65536 + extra) 0 (address % 65536) p_data
            (size % 65536) = some (st, bursts))
      ∧ bursts.length ≤ size % 65536
      ∧ (∀ b ∈ bursts, 1 ≤ b.len)
      ∧ (bursts.map fun b => b.len).sum ≤ size % 65536
      ∧ (∀ (fuel k a n : Nat) (p : List Nat), 0 < n →
          1 ≤ min n (64 - a % 64)
            ∧ n - min n (64 - a % 64) < n
            ∧ (hal.transmit k = HAL_OK → hal.transmit_dma k = HAL_OK →
                EEPROM_Write_DMA_loop hal (fuel + 1) k a p n
                  = (EEPROM_Write_DMA_loop hal fuel (k + 1)
                      ((a + min n (64 - a % 64)) % 65536)
                      (p.drop (min n (64 - a % 64)))
                      (n - min n (64 - a % 64))).map
                    fun r => (r.1, nextBurst a p n :: r.2))) := by
  obtain ⟨r, hr⟩ := EEPROM_Write_DMA_loop_isSome hal (size % 65536) 0 (address % 65536)
    (size % 65536) p_data (Nat.le_refl _)
  obtain ⟨h1, h2⟩ := EEPROM_Write_DMA_loop_iterations hal _ _ _ _ _ r hr
  refine ⟨r.1, r.2, hr, ?_, Nat.le_trans h1 h2, ?_, h2, ?_⟩
  · intro extra
    rw [EEPROM_Write_DMA_loop_extra_fuel hal _ extra 0 _ _ _ (Nat.le_refl _)]
    exact hr
  · intro b hb
    exact (EEPROM_Write_DMA_loop_within_page hal _ _ _ _ _ r hr b hb).1
  · intro fuel k a n p hn
    refine ⟨by omega, by omega, ?_⟩
    intro ht hd
    rw [EEPROM_Write_DMA_loop_succ hal fuel k a n p hn, if_neg (by simp [ht]),
      if_neg (by simp [hd])]

end Comento
